import Mathlib

/-!
Verification development for the `simple-cli-shell` repository.

This file gives a shallow embedding, in Lean 4, of the command dispatch and
job-control core of `src/simpl_cli/commands/executor.py`
(class `ShellCommandExecutor`), together with theorems settling the frozen
claims about it.

Modelling conventions:
* Python strings are modelled as Lean `String` (sequences of Unicode scalar
  values).  Python `dict` objects are modelled as insertion-ordered
  association lists with the usual dict update/lookup semantics.
* OS interactions (process creation, `os.kill`/`os.killpg` outcomes,
  `os.chdir` outcomes, file-system stat calls, terminal control) are
  explicit oracle inputs of the corresponding operations; every other part
  of each operation is translated from the source.
* UI rendering calls are modelled as a list of emitted events where a claim
  needs them, and dropped where no claim mentions them.
-/

namespace SimplCli

/-! ## Python string primitives -/

/-- Whitespace characters recognised by Python's `str.strip` (ASCII range,
which is all the shell front end produces). -/
def pyIsSpace (c : Char) : Bool :=
  c = ' ' || c = '\t' || c = '\n' || c = '\x0d' || c = '\x0b' || c = '\x0c'

/-- Model of Python `str.strip()` on a character list. -/
def pyStripList (l : List Char) : List Char :=
  ((l.dropWhile pyIsSpace).reverse.dropWhile pyIsSpace).reverse

/-- Model of Python `str.strip()`. -/
def pyStrip (s : String) : String :=
  ⟨pyStripList s.data⟩

/-- Model of Python `str.rstrip()`. -/
def pyRStrip (s : String) : String :=
  ⟨(s.data.reverse.dropWhile pyIsSpace).reverse⟩

/-- List prefix test over characters. -/
def listStartsWith : List Char → List Char → Bool
  | _, [] => true
  | [], _ :: _ => false
  | c :: hay, d :: needle => c = d && listStartsWith hay needle

/-- List infix test over characters. -/
def listHasInfix : List Char → List Char → Bool
  | hay, needle =>
    if listStartsWith hay needle then true
    else
      match hay with
      | [] => false
      | _ :: rest => listHasInfix rest needle

/-- Substring containment, Python's `needle in hay`. -/
def strContains (hay needle : String) : Bool :=
  listHasInfix hay.data needle.data

/-- Kernel-computable `strStartsWith String`. -/
def strStartsWith (s pre : String) : Bool :=
  listStartsWith s.data pre.data

/-- Kernel-computable `strEndsWith String`. -/
def strEndsWith (s suf : String) : Bool :=
  listStartsWith s.data.reverse suf.data.reverse

/-- Kernel-computable `String.drop` (character count, as in Python
slicing). -/
def strDrop (s : String) (n : Nat) : String :=
  ⟨s.data.drop n⟩

/-- Kernel-computable decimal-numeral parse (`strToNatQ String`). -/
def strToNatQ (s : String) : Option Nat :=
  if s ≠ "" && s.data.all Char.isDigit then
    some (s.data.foldl (fun a c => a * 10 + (c.toNat - 48)) 0)
  else none

/-- Character membership, Python's `ch in hay` for a one-character needle. -/
def strHasChar (hay : String) (c : Char) : Bool :=
  hay.data.contains c

/-- Numeric value of a decimal digit character. -/
def digitVal (c : Char) : Nat := c.toNat - 48

/-- Digit tail of a Python integer literal: digits with single underscores
allowed between digits (`int("1_0") = 10`). -/
def pyIntDigitsAux : List Char → Nat → Option Nat
  | [], acc => some acc
  | '_' :: rest, acc =>
    match rest with
    | c :: rest2 =>
      if c.isDigit then pyIntDigitsAux rest2 (acc * 10 + digitVal c) else none
    | [] => none
  | c :: rest, acc =>
    if c.isDigit then pyIntDigitsAux rest (acc * 10 + digitVal c) else none

/-- Unsigned part of a Python integer literal: must start with a digit. -/
def pyIntFromDigits : List Char → Option Nat
  | c :: rest => if c.isDigit then pyIntDigitsAux rest (digitVal c) else none
  | [] => none

/-- Model of Python `int(s)` on strings: optional surrounding whitespace,
optional sign, decimal digits with optional underscore separators.
`none` models the `ValueError` branch. -/
def pyInt (s : String) : Option Int :=
  match pyStripList s.data with
  | '+' :: rest => (pyIntFromDigits rest).map Int.ofNat
  | '-' :: rest => (pyIntFromDigits rest).map (fun n => -(n : Int))
  | rest => (pyIntFromDigits rest).map Int.ofNat

/-! ## Ordered dictionaries (Python `dict` model) -/

/-- Lookup in an insertion-ordered dictionary. -/
def dictGet {α β : Type} [DecidableEq α] (d : List (α × β)) (k : α) : Option β :=
  (d.find? (fun p => p.1 = k)).map (·.2)

/-- Python `d[k] = v`: replace in place if the key exists, else append. -/
def dictSet {α β : Type} [DecidableEq α] (d : List (α × β)) (k : α) (v : β) :
    List (α × β) :=
  if d.any (fun p => p.1 = k) then
    d.map (fun p => if p.1 = k then (k, v) else p)
  else d ++ [(k, v)]

/-- Python `del d[k]`. -/
def dictDelete {α β : Type} [DecidableEq α] (d : List (α × β)) (k : α) :
    List (α × β) :=
  d.filter (fun p => ¬ p.1 = k)

/-- Keys of a dictionary. -/
def dictKeys {α β : Type} (d : List (α × β)) : List α := d.map (·.1)

/-! ## Data model (`ShellCommandExecutor` state)

Mirrors the attributes set in `ShellCommandExecutor.__init__` that the
claims are about: `jobs`, `task_queue`, `next_job_id`, `foreground_job`,
`aliases`, `previous_directory`, plus the process-wide working directory and
environment table the handlers mutate, the persisted alias file content, and
the terminal-ownership record kept by `_set_foreground_process_group`. -/

/-- Job status strings used by the executor. -/
inductive JobStatus where
  | running
  | stopped
  | done
  | failed
deriving DecidableEq

/-- One entry of `self.jobs` (the dict literal built in
`_execute_background_command`).  `hasProcess` models truthiness of the
`"process"` field (always a live `Popen` object at creation). -/
structure Job where
  pid : Int
  pgid : Option Int
  hasProcess : Bool
  command : String
  status : JobStatus
  start_time : Nat
  exit_code : Option Int
  completion_time : Option Nat
deriving DecidableEq

/-- Executor state. `alias_file` is the content of `Config.ALIAS_FILE`
(`none` when the file does not exist); `terminal_transferred_to` records the
process group that currently owns the controlling terminal when it is not
the shell itself. -/
structure ExecState where
  jobs : List (Int × Job)
  task_queue : List Int
  next_job_id : Int
  foreground_job : Option Int
  aliases : List (String × String)
  env : List (String × String)
  cwd : String
  previous_directory : String
  alias_file : Option String
  terminal_transferred_to : Option Int
deriving DecidableEq

/-- Update one job's record in place (Python mutates the dict entry). -/
def modifyJob (st : ExecState) (jobId : Int) (f : Job → Job) : ExecState :=
  { st with jobs := st.jobs.map (fun p => if p.1 = jobId then (p.1, f p.2) else p) }

/-- Events surfaced through the UI collaborator. -/
inductive UIEvent where
  | errorEv (command msg : String)
  | infoEv (msg : String)
  | dirChange (command newDir : String)
deriving DecidableEq

/-- Whether a UI event is an error display. -/
def UIEvent.isError : UIEvent → Bool
  | .errorEv _ _ => true
  | _ => false

/-! ## Job-spec resolution (`_parse_job_spec`, executor.py lines 1266-1291) -/

/-- Model of `ShellCommandExecutor._parse_job_spec`. -/
def parse_job_spec (st : ExecState) (spec : String) : Option Int :=
  let spec := pyStrip spec
  if spec = "+" || spec = "%+" then
    st.task_queue.head?
  else if spec = "-" || spec = "%-" then
    if st.task_queue.length > 1 then st.task_queue[1]? else none
  else
    let spec := if strStartsWith spec "%" then strDrop spec 1 else spec
    if spec = "" then none
    else
      match pyInt spec with
      | some jobId => if (dictGet st.jobs jobId).isSome then some jobId else none
      | none => none

/-! ## Background launch (`_execute_background_command`, lines 886-963) -/

/-- OS-side outcomes of one background launch: the pid returned by
`subprocess.Popen` (`none` models the constructor raising), and the result
of `os.getpgid(pid)` (`none` models the exception branch or Windows). -/
structure LaunchOracle where
  popen : Option Int
  getpgid : Option Int
deriving DecidableEq

/-- Model of `ShellCommandExecutor._execute_background_command`.  Returns
the new state, the job id that was allocated (`none` when the function
bailed out before `next_job_id` was read: empty command, no trailing `&`,
doubled `&&`, or empty command after removing `&` — the first two of these
fall through to the passthrough handler, which touches no job state), and
the emitted UI events. -/
def execute_background_command (st : ExecState) (command : String)
    (o : LaunchOracle) (now : Nat) : ExecState × Option Int × List UIEvent :=
  let stripped := pyRStrip command
  if stripped = "" then
    (st, none, [UIEvent.errorEv command "Empty command"])
  else if stripped.data.getLast? ≠ some '&' then
    (st, none, [])
  else if stripped.data.dropLast.getLast? = some '&' then
    (st, none, [])
  else
    let cmd_to_run := pyRStrip ⟨stripped.data.dropLast⟩
    if cmd_to_run = "" then
      (st, none, [UIEvent.errorEv command "Empty command after removing &"])
    else
      let jobId := st.next_job_id
      let st1 := { st with next_job_id := st.next_job_id + 1 }
      match o.popen with
      | none =>
        (st1, some jobId,
          [UIEvent.errorEv command "Failed to start background job"])
      | some pid =>
        let job : Job :=
          { pid := pid, pgid := o.getpgid, hasProcess := true,
            command := cmd_to_run, status := .running, start_time := now,
            exit_code := none, completion_time := none }
        let st2 := { st1 with
          jobs := dictSet st1.jobs jobId job,
          task_queue := jobId :: st1.task_queue }
        (st2, some jobId,
          [UIEvent.infoEv ("[" ++ toString jobId ++ "] started")])

/-! ## Background monitor (`_monitor_background_job`, lines 965-1014) -/

/-- One iteration of the monitor loop for `jobId`, with the result of
`process.poll()` supplied by the OS (`some code` once the process has
exited).  The exception branch of the thread body (which marks the job
`failed`) has no modelled exception source and is not represented. -/
def monitor_step (st : ExecState) (jobId : Int) (poll : Option Int)
    (now : Nat) : ExecState :=
  if (dictGet st.jobs jobId).isNone then st
  else
    match poll with
    | some code =>
      modifyJob st jobId (fun j =>
        { j with status := .done, exit_code := some code,
                 completion_time := some now })
    | none => st

/-! ## Signal delivery (`_send_signal_to_job`, lines 1109-1128) -/

/-- Model of `ShellCommandExecutor._send_signal_to_job`.  `killpgOk` and
`killOk` are the OS outcomes of `os.killpg(pgid, sig)` and
`os.kill(pid, sig)`.  Python truthiness: `not pgid` holds for `None` and
for `0`, `not pid` for `0`. -/
def send_signal_to_job (st : ExecState) (jobId : Int) (_sig : Int)
    (killpgOk killOk : Bool) : Bool :=
  match dictGet st.jobs jobId with
  | none => false
  | some j =>
    let pgidTruthy := match j.pgid with
      | some g => g ≠ 0
      | none => false
    if !pgidTruthy || j.pid = 0 then false
    else if killpgOk then true
    else if killOk then true
    else false

/-! ## Terminal control (`_set_foreground_process_group`,
`_restore_terminal_control`, lines 1070-1107) -/

/-- Model of `_set_foreground_process_group` on POSIX.  `ok` is the outcome
of the `termios`/`os.tcsetpgrp` calls; on success the controlling terminal
is owned by process group `pgid`. -/
def set_foreground_process_group (st : ExecState) (pgid : Int) (ok : Bool) :
    ExecState × Bool :=
  if ok then ({ st with terminal_transferred_to := some pgid }, true)
  else (st, false)

/-- Model of `_restore_terminal_control` on POSIX: terminal ownership
returns to the shell's own process group. -/
def restore_terminal_control (st : ExecState) : ExecState :=
  { st with terminal_transferred_to := none }

/-! ## Suspend / interrupt (`_suspend_foreground_job`,
`_interrupt_foreground_job`, lines 1130-1181) -/

/-- Model of `_suspend_foreground_job`.  `killpgOk`/`killOk` are the OS
outcomes for the SIGTSTP delivery.  Python truthiness of
`self.foreground_job`: `not self.foreground_job` holds for `None` and for
the (unreachable) id `0`. -/
def suspend_foreground_job (st : ExecState) (killpgOk killOk : Bool) :
    ExecState × Bool :=
  match st.foreground_job with
  | none => (st, false)
  | some jobId =>
    if jobId = 0 then (st, false)
    else
      match dictGet st.jobs jobId with
      | none => ({ st with foreground_job := none }, false)
      | some j =>
        if j.status ≠ .running then (st, false)
        else if send_signal_to_job st jobId 20 killpgOk killOk then
          let st1 := modifyJob st jobId (fun jj => { jj with status := .stopped })
          let st2 := restore_terminal_control st1
          ({ st2 with foreground_job := none }, true)
        else (st, false)

/-- Model of `_interrupt_foreground_job` (SIGINT delivery; the job status is
not changed by this operation). -/
def interrupt_foreground_job (st : ExecState) (killpgOk killOk : Bool) :
    ExecState × Bool :=
  match st.foreground_job with
  | none => (st, false)
  | some jobId =>
    if jobId = 0 then (st, false)
    else
      match dictGet st.jobs jobId with
      | none => ({ st with foreground_job := none }, false)
      | some j =>
        if j.status ≠ .running then (st, false)
        else if send_signal_to_job st jobId 2 killpgOk killOk then
          (restore_terminal_control st, true)
        else (st, false)

/-! ## Foreground attach (`_bring_job_to_foreground`, lines 1293-1355) -/

/-- OS-side outcomes used by `_bring_job_to_foreground`: the SIGCONT
delivery attempts, the terminal-transfer outcome, and the exit code
eventually returned by `process.wait()`. -/
structure FgOracle where
  killpgOk : Bool
  killOk : Bool
  transferOk : Bool
  waitExit : Int
deriving DecidableEq

/-- State of `_bring_job_to_foreground` at the point where it blocks in
`process.wait()` (the state observable by the Ctrl-Z / Ctrl-C signal-handler
paths while the job runs in the foreground).  The boolean is false when the
function returned before reaching the wait: unknown job, job already
done/failed, or missing process object — in that last case the function has
already set `self.foreground_job` and returns without clearing it. -/
def bring_job_to_foreground_preWait (st : ExecState) (jobId : Int)
    (o : FgOracle) : ExecState × Bool :=
  match dictGet st.jobs jobId with
  | none => (st, false)
  | some j =>
    if j.status = .done || j.status = .failed then (st, false)
    else
      let st1 := { st with foreground_job := some jobId }
      if !j.hasProcess then (st1, false)
      else
        let st2 :=
          if j.status = .stopped then
            if send_signal_to_job st1 jobId 18 o.killpgOk o.killOk then
              modifyJob st1 jobId (fun jj => { jj with status := .running })
            else st1
          else st1
        let st3 :=
          match j.pgid with
          | some g =>
            if g ≠ 0 then (set_foreground_process_group st2 g o.transferOk).1
            else st2
          | none => st2
        (st3, true)

/-- Model of the full `_bring_job_to_foreground` operation (the wait
completes normally with exit code `o.waitExit`). -/
def bring_job_to_foreground (st : ExecState) (jobId : Int) (o : FgOracle) :
    ExecState :=
  match bring_job_to_foreground_preWait st jobId o with
  | (st1, false) => st1
  | (st1, true) =>
    let pgidTruthy : Bool :=
      match dictGet st.jobs jobId with
      | some j => match j.pgid with
        | some g => g != 0
        | none => false
      | none => false
    let st2 := if pgidTruthy then restore_terminal_control st1 else st1
    let st3 := { st2 with foreground_job := none }
    modifyJob st3 jobId (fun jj =>
      { jj with status := .done, exit_code := some o.waitExit })

/-! ## Background resume (`_resume_background_job`, lines 1357-1387) -/

/-- Model of `_resume_background_job`. -/
def resume_background_job (st : ExecState) (jobId : Int)
    (killpgOk killOk : Bool) : ExecState :=
  match dictGet st.jobs jobId with
  | none => st
  | some j =>
    if j.status = .done || j.status = .failed then st
    else if j.status ≠ .stopped then st
    else if send_signal_to_job st jobId 18 killpgOk killOk then
      modifyJob st jobId (fun jj => { jj with status := .running })
    else st

/-! ## Shutdown cleanup (`_cleanup_all_jobs`, lines 1183-1228) -/

/-- Model of `_cleanup_all_jobs`: every job still running or stopped gets
best-effort termination signals (which do not change the recorded state)
and is then unconditionally marked done with sentinel exit code `-1`.
Jobs already done/failed are skipped; `completion_time` is not touched. -/
def cleanup_all_jobs (st : ExecState) : ExecState :=
  if st.jobs = [] then st
  else
    { st with jobs := st.jobs.map (fun p =>
        if p.2.status = .running || p.2.status = .stopped then
          (p.1, { p.2 with status := .done, exit_code := some (-1) })
        else p) }

/-! ## Tokenisation (`shlex.split`, posix mode, as used throughout the
executor) -/

/-- The single-quote character (written by code point to keep the sources
free of quote literals). -/
def quoteChar : Char := Char.ofNat 39

/-- The double-quote character. -/
def dquoteChar : Char := Char.ofNat 34

/-- The backslash character. -/
def backslashChar : Char := Char.ofNat 92

/-- Scan a single-quoted section: verbatim characters until the closing
quote; `none` models `ValueError: No closing quotation`. -/
def scanSingleQuoted : List Char → List Char → Option (List Char × List Char)
  | [], _ => none
  | c :: rest, acc =>
    if c = quoteChar then some (acc.reverse, rest)
    else scanSingleQuoted rest (c :: acc)

/-- Scan a double-quoted section: backslash escapes only the double quote
and the backslash itself, otherwise the backslash is kept literally. -/
def scanDoubleQuoted : List Char → List Char → Option (List Char × List Char)
  | [], _ => none
  | c :: rest, acc =>
    if c = dquoteChar then some (acc.reverse, rest)
    else if c = backslashChar then
      match rest with
      | [] => none
      | d :: rest2 =>
        if d = dquoteChar || d = backslashChar then
          scanDoubleQuoted rest2 (d :: acc)
        else scanDoubleQuoted rest2 (d :: backslashChar :: acc)
    else scanDoubleQuoted rest (c :: acc)

/-- Characters `shlex` treats as token separators (`shlex.whitespace`). -/
def shlexWs (c : Char) : Bool :=
  c = ' ' || c = '\t' || c = '\x0d' || c = '\n'

/-- Main `shlex.split(command, posix=True)` loop (whitespace splitting,
single/double quotes, backslash escapes, comments disabled).  `fuel` is an
upper bound on the number of characters left; every step consumes at least
one character so `input.length + 1` always suffices. -/
def shlexAux : Nat → List Char → List Char → Bool → List String →
    Option (List String)
  | 0, _, _, _, _ => none
  | _ + 1, [], cur, seen, acc =>
    some (if seen then (⟨cur.reverse⟩ :: acc).reverse else acc.reverse)
  | fuel + 1, c :: rest, cur, seen, acc =>
    if shlexWs c then
      if seen then shlexAux fuel rest [] false (⟨cur.reverse⟩ :: acc)
      else shlexAux fuel rest cur seen acc
    else if c = quoteChar then
      match scanSingleQuoted rest [] with
      | none => none
      | some (content, rest2) =>
        shlexAux fuel rest2 (content.reverse ++ cur) true acc
    else if c = dquoteChar then
      match scanDoubleQuoted rest [] with
      | none => none
      | some (content, rest2) =>
        shlexAux fuel rest2 (content.reverse ++ cur) true acc
    else if c = backslashChar then
      match rest with
      | [] => none
      | d :: rest2 => shlexAux fuel rest2 (d :: cur) true acc
    else shlexAux fuel rest (c :: cur) true acc

/-- Model of `shlex.split(command, posix=True)`; `none` models the
`ValueError` raised on unbalanced quoting or a dangling escape. -/
def shlexSplit (s : String) : Option (List String) :=
  shlexAux (s.data.length + 1) s.data [] false []

/-- Characters `shlex.quote` leaves unquoted: ASCII alphanumerics plus
underscore, at-sign, percent, plus, equals, colon, comma, dot, slash and
dash. -/
def shQuoteSafe (c : Char) : Bool :=
  c.isAlphanum || c = '_' || c = '@' || c = '%' || c = '+' || c = '=' ||
    c = ':' || c = ',' || c = '.' || c = '/' || c = '-'

/-- Model of `shlex.quote`. -/
def shlexQuote (s : String) : String :=
  if s = "" then ⟨[quoteChar, quoteChar]⟩
  else if s.data.all shQuoteSafe then s
  else
    let rep := (s.data.map (fun c =>
      if c = quoteChar then
        [quoteChar, dquoteChar, quoteChar, dquoteChar, quoteChar]
      else [c])).flatten
    ⟨quoteChar :: (rep ++ [quoteChar])⟩

/-! ## Identifiers and assignments -/

/-- First character of a shell identifier. -/
def isIdentStartChar (c : Char) : Bool := c.isAlpha || c = '_'

/-- Later characters of a shell identifier. -/
def isIdentChar (c : Char) : Bool := c.isAlphanum || c = '_'

/-- Core identifier shape `[A-Za-z_][A-Za-z0-9_]*`. -/
def identCore : List Char → Bool
  | [] => false
  | c :: rest => isIdentStartChar c && rest.all isIdentChar

/-- Model of `_is_valid_identifier` (executor.py lines 2170-2172):
`re.match(r"^[A-Za-z_][A-Za-z0-9_]*$", name)`.  Python's `$` also matches
just before a single trailing newline. -/
def is_valid_identifier (s : String) : Bool :=
  identCore s.data ||
    (match s.data.getLast? with
     | some c => c = '\n' && identCore s.data.dropLast
     | none => false)

/-- Python `s.split(sep, 1)` for a single-character separator that is known
to occur: text before the first occurrence and the remainder after it. -/
def breakOnChar (c : Char) : List Char → List Char × Option (List Char)
  | [] => ([], none)
  | d :: rest =>
    if d = c then ([], some rest)
    else
      let (a, b) := breakOnChar c rest
      (d :: a, b)

/-- Name part of `token.split("=", 1)`. -/
def eqName (s : String) : String := ⟨(breakOnChar '=' s.data).1⟩

/-- Value part of `token.split("=", 1)` (empty when no `=` occurs). -/
def eqValue (s : String) : String := ⟨((breakOnChar '=' s.data).2).getD []⟩

/-- Python `value.strip("'\"")`: strip any run of single/double quotes from
both ends. -/
def stripQuotes (s : String) : String :=
  let p := fun c => c = quoteChar || c = dquoteChar
  ⟨((s.data.dropWhile p).reverse.dropWhile p).reverse⟩

/-! ## File-system / OS oracle -/

/-- Environment of the classifier and the directory handlers: outcomes of
the file-system stat calls, the `PATH` scan, `$HOME`, and `os.chdir`.
`chdir path` returns the new `os.getcwd()` on success and the stringified
`OSError` on failure. -/
structure FS where
  isDir : String → Bool
  isExecFile : String → Bool
  onPath : String → Bool
  home : String
  chdir : String → Except String String

/-- Model of `os.path.expanduser` on POSIX with no other OS users: `~` and
`~/...` expand through `$HOME` (right-stripped of slashes, result defaulted
to `/`), `~user` forms are returned unchanged. -/
def expanduser (home : String) (p : String) : String :=
  if p = "~" || strStartsWith p "~/" then
    let uh : String := ⟨(home.data.reverse.dropWhile (· = '/')).reverse⟩
    let r := uh ++ strDrop p 1
    if r = "" then "/" else r
  else p

/-- Model of binary `os.path.join` on POSIX. -/
def joinPath (a b : String) : String :=
  if strStartsWith b "/" then b
  else if a = "" || strEndsWith a "/" then a ++ b
  else a ++ "/" ++ b

/-! ## Directory change (`_handle_cd_command`, lines 671-693) -/

/-- Path that `_handle_cd_command` passes to `os.chdir`, computed from the
command text, `$HOME` and the tracked previous directory. -/
def cd_target (home : String) (st : ExecState) (command : String) : String :=
  let path0 := pyStrip (strDrop command 3)
  if path0 = "" then expanduser home "~"
  else if path0 = "-" then
    if st.previous_directory = "" then expanduser home "~"
    else st.previous_directory
  else expanduser home path0

/-- Model of `ShellCommandExecutor._handle_cd_command`.  On success the
tracked previous directory becomes the old working directory; on `OSError`
the handler catches the exception, reports `cd: <error>` and leaves all
state unchanged (`CD_FEEDBACK_ENABLED` is off in the configuration, so the
success path only records the context entry, modelled as `dirChange`). -/
def handle_cd_command (fs : FS) (st : ExecState) (command : String) :
    ExecState × List UIEvent :=
  let path := cd_target fs.home st command
  match fs.chdir path with
  | .ok newDir =>
    ({ st with cwd := newDir, previous_directory := st.cwd },
      [UIEvent.dirChange command newDir])
  | .error err =>
    (st, [UIEvent.errorEv command ("cd: " ++ err)])

/-! ## Known commands and auto-cd (`_is_known_command`, `_handle_auto_cd`,
lines 588-669) -/

/-- The builtin-name set of `_is_known_command`. -/
def knownBuiltins : List String :=
  ["cd", "ls", "pwd", "echo", "cat", "mkdir", "rm", "cp", "mv", "grep",
   "find", "chmod", "chown", "ps", "kill", "jobs", "fg", "bg", "export",
   "unset", "alias", "unalias", "source", ".", "exit", "clear", "history",
   "type", "which", "whereis"]

/-- Model of `_is_known_command`: builtin names, stored aliases, then the
`PATH` executable scan (supplied by the oracle). -/
def is_known_command (fs : FS) (st : ExecState) (cmd : String) : Bool :=
  knownBuiltins.contains cmd || (dictGet st.aliases cmd).isSome || fs.onPath cmd

/-- Model of `ShellCommandExecutor._handle_auto_cd`; `none` models the
`return False` paths (line not handled by auto-cd). -/
def handle_auto_cd (fs : FS) (st : ExecState) (command : String) :
    Option (ExecState × List UIEvent) :=
  let cmd := pyStrip command
  if strHasChar cmd ' ' then none
  else if cmd = "" then none
  else if cmd = "." || cmd = ".." || cmd = "-" then
    some (handle_cd_command fs st ("cd " ++ cmd))
  else if is_known_command fs st cmd then none
  else
    let path := if strStartsWith cmd "/" then cmd else joinPath st.cwd cmd
    if fs.isDir path then some (handle_cd_command fs st ("cd " ++ cmd))
    else if strStartsWith cmd "~" then
      if fs.isDir (expanduser fs.home cmd) then
        some (handle_cd_command fs st ("cd " ++ cmd))
      else none
    else none

/-! ## JSON encoding/decoding of the alias store

`_save_aliases` writes `json.dumps(self.aliases, indent=2)` and
`_load_aliases` reads it back with `json.loads`.  The alias store is a
string-to-string object, so the model covers exactly that JSON fragment:
`json.dumps` with `indent=2` and `ensure_ascii=True`, and the part of
`json.loads` that parses objects whose values are strings.  Python strings
containing lone UTF-16 surrogates are outside the model (Lean strings are
sequences of Unicode scalar values); the parser rejects them. -/

/-- The opening-brace character. -/
def lbraceChar : Char := Char.ofNat 123

/-- The closing-brace character. -/
def rbraceChar : Char := Char.ofNat 125

/-- Lowercase hexadecimal digit. -/
def toHexDigit (n : Nat) : Char :=
  if n < 10 then Char.ofNat (48 + n) else Char.ofNat (87 + n)

/-- Four-digit lowercase hex rendering of `n < 0x10000` (`"\\u%04x"`). -/
def toHex4 (n : Nat) : List Char :=
  [toHexDigit (n / 4096 % 16), toHexDigit (n / 256 % 16),
   toHexDigit (n / 16 % 16), toHexDigit (n % 16)]

/-- Model of CPython's `py_encode_basestring_ascii` on one character:
two-character escapes for the JSON specials, printable ASCII kept literal,
everything else as `\\uXXXX` (with a surrogate pair above `0xffff`). -/
def jsonEscapeChar (c : Char) : List Char :=
  if c = dquoteChar then [backslashChar, dquoteChar]
  else if c = backslashChar then [backslashChar, backslashChar]
  else if c = '\x08' then [backslashChar, 'b']
  else if c = '\x0c' then [backslashChar, 'f']
  else if c = '\n' then [backslashChar, 'n']
  else if c = '\x0d' then [backslashChar, 'r']
  else if c = '\t' then [backslashChar, 't']
  else if 0x20 ≤ c.toNat && c.toNat ≤ 0x7e then [c]
  else if c.toNat ≤ 0xffff then backslashChar :: 'u' :: toHex4 c.toNat
  else
    let n := c.toNat - 0x10000
    (backslashChar :: 'u' :: toHex4 (0xd800 + n / 1024)) ++
      (backslashChar :: 'u' :: toHex4 (0xdc00 + n % 1024))

/-- JSON string literal for `s`. -/
def jsonEncodeString (s : String) : List Char :=
  dquoteChar :: ((s.data.map jsonEscapeChar).flatten ++ [dquoteChar])

/-- One `"key": "value"` member. -/
def renderMember (p : String × String) : List Char :=
  jsonEncodeString p.1 ++ ':' :: ' ' :: jsonEncodeString p.2

/-- Interleave a separator between rendered members. -/
def listIntercalate (sep : List Char) : List (List Char) → List Char
  | [] => []
  | x :: xs => x ++ (xs.map (fun y => sep ++ y)).flatten

/-- The member separator produced by `json.dumps(..., indent=2)`:
a comma, then a newline and the two-space indent. -/
def jsep : List Char := [',', '\n', ' ', ' ']

/-- Model of `json.dumps(aliases, indent=2)` for a string-to-string dict. -/
def pyJsonDumpsPairs (l : List (String × String)) : String :=
  match l with
  | [] => ⟨[lbraceChar, rbraceChar]⟩
  | _ =>
    ⟨lbraceChar :: '\n' :: ' ' :: ' ' ::
      (listIntercalate jsep (l.map renderMember) ++ ['\n', rbraceChar])⟩

/-- JSON whitespace accepted between tokens by `json.loads`. -/
def jsonWs (c : Char) : Bool :=
  c = ' ' || c = '\t' || c = '\n' || c = '\x0d'

/-- Skip JSON whitespace. -/
def skipJsonWs (l : List Char) : List Char := l.dropWhile jsonWs

/-- Value of one hexadecimal digit. -/
def hexVal (c : Char) : Option Nat :=
  if '0' ≤ c && c ≤ '9' then some (c.toNat - 48)
  else if 'a' ≤ c && c ≤ 'f' then some (c.toNat - 87)
  else if 'A' ≤ c && c ≤ 'F' then some (c.toNat - 55)
  else none

/-- Combined value of four hex digits (digits assumed valid, junk gives 0). -/
def hexQuadVal (ds : List Char) : Nat :=
  ds.foldl (fun acc c => acc * 16 + (hexVal c).getD 0) 0

/-- Simple JSON escapes accepted after a backslash. -/
def escSimple (c : Char) : Option Char :=
  if c = dquoteChar then some dquoteChar
  else if c = backslashChar then some backslashChar
  else if c = '/' then some '/'
  else if c = 'b' then some '\x08'
  else if c = 'f' then some '\x0c'
  else if c = 'n' then some '\n'
  else if c = 'r' then some '\x0d'
  else if c = 't' then some '\t'
  else none

/-- Scanner state inside a JSON string literal. -/
inductive JStrState where
  | normal
  | esc
  | hex (ds : List Char)
  | lo1 (hi : Nat)
  | lo2 (hi : Nat)
  | lohex (hi : Nat) (ds : List Char)
deriving DecidableEq

/-- Character-at-a-time scanner for a JSON string body (after the opening
quote), modelling CPython's `py_scanstring` in strict mode, restricted to
inputs without lone surrogates.  Returns the decoded characters and the
input after the closing quote. -/
def jsonStrBody : List Char → JStrState → List Char →
    Option (List Char × List Char)
  | [], _, _ => none
  | c :: rest, .normal, acc =>
    if c = dquoteChar then some (acc.reverse, rest)
    else if c = backslashChar then jsonStrBody rest .esc acc
    else if c.toNat < 0x20 then none
    else jsonStrBody rest .normal (c :: acc)
  | c :: rest, .esc, acc =>
    if c = 'u' then jsonStrBody rest (.hex []) acc
    else
      match escSimple c with
      | some ch => jsonStrBody rest .normal (ch :: acc)
      | none => none
  | c :: rest, .hex ds, acc =>
    match hexVal c with
    | none => none
    | some _ =>
      let ds2 := ds ++ [c]
      if ds2.length = 4 then
        let n := hexQuadVal ds2
        if 0xd800 ≤ n && n ≤ 0xdbff then jsonStrBody rest (.lo1 n) acc
        else if 0xdc00 ≤ n && n ≤ 0xdfff then none
        else jsonStrBody rest .normal (Char.ofNat n :: acc)
      else jsonStrBody rest (.hex ds2) acc
  | c :: rest, .lo1 hi, acc =>
    if c = backslashChar then jsonStrBody rest (.lo2 hi) acc else none
  | c :: rest, .lo2 hi, acc =>
    if c = 'u' then jsonStrBody rest (.lohex hi []) acc else none
  | c :: rest, .lohex hi ds, acc =>
    match hexVal c with
    | none => none
    | some _ =>
      let ds2 := ds ++ [c]
      if ds2.length = 4 then
        let m := hexQuadVal ds2
        if 0xdc00 ≤ m && m ≤ 0xdfff then
          jsonStrBody rest .normal
            (Char.ofNat (0x10000 + (hi - 0xd800) * 1024 + (m - 0xdc00)) :: acc)
        else none
      else jsonStrBody rest (.lohex hi ds2) acc

/-- Parse a JSON string literal (opening quote onward). -/
def parseJsonString (l : List Char) : Option (List Char × List Char) :=
  match l with
  | c :: rest => if c = dquoteChar then jsonStrBody rest .normal [] else none
  | [] => none

/-- Parse a nonempty member sequence up to and including the closing brace.
`fuel` bounds the number of members; the caller passes the input length. -/
def membersAux : Nat → List Char → Option (List (String × String) × List Char)
  | 0, _ => none
  | fuel + 1, l =>
    match parseJsonString (skipJsonWs l) with
    | none => none
    | some (k, r1) =>
      match skipJsonWs r1 with
      | ':' :: r3 =>
        match parseJsonString (skipJsonWs r3) with
        | none => none
        | some (v, r5) =>
          match skipJsonWs r5 with
          | ',' :: r7 =>
            (membersAux fuel r7).map (fun p => ((⟨k⟩, ⟨v⟩) :: p.1, p.2))
          | d :: r7 =>
            if d = rbraceChar then some ([(⟨k⟩, ⟨v⟩)], r7) else none
          | [] => none
      | _ => none

/-- Parse a JSON object of strings; returns the members and the remaining
input. -/
def jsonLoadsObjAux (l : List Char) : Option (List (String × String) × List Char) :=
  match skipJsonWs l with
  | c :: rest =>
    if c = lbraceChar then
      match skipJsonWs rest with
      | d :: rest2 =>
        if d = rbraceChar then some ([], rest2)
        else membersAux (l.length + 1) (skipJsonWs rest)
      | [] => none
    else none
  | [] => none

/-- Model of `json.loads` restricted to string-to-string objects (the only
shape `_save_aliases` writes); `none` models a `json.JSONDecodeError` or a
payload outside that fragment. -/
def jsonLoadsObj (s : String) : Option (List (String × String)) :=
  match jsonLoadsObjAux s.data with
  | some (ps, rest) => if skipJsonWs rest = [] then some ps else none
  | none => none

/-! ## Alias persistence (`_load_aliases`, `_save_aliases`,
lines 1984-2002) -/

/-- Model of `_load_aliases`: missing file, blank file, or any decode
failure yields the empty table. -/
def load_aliases (content : Option String) : List (String × String) :=
  match content with
  | none => []
  | some raw =>
    let raw2 := pyStrip raw
    if raw2 = "" then []
    else (jsonLoadsObj raw2).getD []

/-- Model of `_save_aliases`: write the dump to the alias file; a failing
write is swallowed (`writeOk = false` leaves the file as it was). -/
def save_aliases (writeOk : Bool) (st : ExecState) : ExecState :=
  if writeOk then { st with alias_file := some (pyJsonDumpsPairs st.aliases) }
  else st

/-! ## Alias / export / unset / assignment handlers
(`_handle_alias_command` lines 1901-1929, `_handle_unalias_command`
1931-1953, `_expand_alias` 1967-1982, `_handle_export_command` 2004-2034,
`_handle_unset_command` 2036-2060, `_handle_assignment_only` 2062-2121).

Each handler first tokenises the raw command with `shlex.split`; the
theorems below quantify over the resulting token lists, and the `_command`
wrappers tie the two together.  Message literals are abbreviated: the
quotation marks Python puts around the offending token are dropped. -/

/-- Validation loop of `_handle_alias_command`: the updates dict is built
completely before any of it is applied, and the first bad token aborts. -/
def collectAliasUpdates : List String → Except String (List (String × String))
  | [] => .ok []
  | t :: rest =>
    if !strHasChar t '=' then .error ("alias: invalid definition " ++ t)
    else
      let name := eqName t
      let value := stripQuotes (eqValue t)
      if !is_valid_identifier name then .error ("alias: invalid name " ++ name)
      else (collectAliasUpdates rest).map (fun l => (name, value) :: l)

/-- Token-level model of `_handle_alias_command` (the part after
`shlex.split` succeeded). -/
def handle_alias_tokens (st : ExecState) (writeOk : Bool)
    (tokens : List String) : ExecState × List UIEvent :=
  if tokens.length = 1 then (st, [])
  else
    match collectAliasUpdates tokens.tail with
    | .error e => (st, [UIEvent.errorEv (String.intercalate " " tokens) e])
    | .ok updates =>
      let st1 := { st with
        aliases := updates.foldl (fun d p => dictSet d p.1 p.2) st.aliases }
      (save_aliases writeOk st1, [UIEvent.infoEv "Aliases updated"])

/-- Model of `_handle_alias_command` on the raw line. -/
def handle_alias_command (st : ExecState) (writeOk : Bool)
    (command : String) : ExecState × List UIEvent :=
  match shlexSplit command with
  | none => (st, [UIEvent.errorEv command "alias: tokenisation error"])
  | some tokens => handle_alias_tokens st writeOk tokens

/-- Token-level model of `_handle_unalias_command`. -/
def handle_unalias_tokens (st : ExecState) (writeOk : Bool)
    (tokens : List String) : ExecState × List UIEvent :=
  if tokens.length < 2 then
    (st, [UIEvent.errorEv (String.intercalate " " tokens) "unalias: requires a name"])
  else
    let removed := tokens.tail.filter (fun n => (dictGet st.aliases n).isSome)
    let st1 := { st with
      aliases := tokens.tail.foldl (fun d n => dictDelete d n) st.aliases }
    if removed ≠ [] then (save_aliases writeOk st1, [UIEvent.infoEv "Removed aliases"])
    else (st1, [UIEvent.infoEv "No matching aliases removed"])

/-- Validation loop of `_handle_export_command`. -/
def collectExportUpdates : List String → Except String (List (String × String))
  | [] => .ok []
  | t :: rest =>
    if !strHasChar t '=' then .error ("export: invalid assignment " ++ t)
    else
      let name := eqName t
      let value := eqValue t
      if !is_valid_identifier name then .error ("export: invalid name " ++ name)
      else (collectExportUpdates rest).map (fun l => (name, value) :: l)

/-- Token-level model of `_handle_export_command` after `shlex.split`.
A bare `export` only prints the environment. -/
def handle_export_tokens (st : ExecState) (tokens : List String) :
    ExecState × List UIEvent :=
  if tokens.length = 1 then (st, [])
  else
    match collectExportUpdates tokens.tail with
    | .error e => (st, [UIEvent.errorEv (String.intercalate " " tokens) e])
    | .ok updates =>
      ({ st with env := updates.foldl (fun d p => dictSet d p.1 p.2) st.env },
        [UIEvent.infoEv "Exported"])

/-- Token-level model of `_handle_unset_command` after `shlex.split`:
names are deleted one by one with no identifier validation. -/
def handle_unset_tokens (st : ExecState) (tokens : List String) :
    ExecState × List UIEvent :=
  if tokens.length < 2 then
    (st, [UIEvent.errorEv (String.intercalate " " tokens)
      "unset: requires a variable name"])
  else
    let removed := tokens.tail.filter (fun n => (dictGet st.env n).isSome)
    let st1 := { st with
      env := tokens.tail.foldl (fun d n => dictDelete d n) st.env }
    if removed ≠ [] then (st1, [UIEvent.infoEv "Unset"])
    else (st1, [UIEvent.infoEv "No variables unset"])

/-- Model of `_expand_alias`: tokenise, look the first token up in the
alias table, and rebuild the line from the alias value and the re-quoted
remaining tokens.  Any tokenisation error, empty line, unknown first token
or falsy (empty) alias value returns the line unchanged. -/
def expand_alias (st : ExecState) (command : String) : String :=
  match shlexSplit command with
  | none => command
  | some [] => command
  | some (t0 :: rest) =>
    match dictGet st.aliases t0 with
    | none => command
    | some v =>
      if v = "" then command
      else
        let restStr := String.intercalate " " (rest.map shlexQuote)
        pyStrip (v ++ " " ++ restStr)

/-! ## Interactive-command detection (`_is_interactive_command` and helpers,
lines 219-358) -/

/-- Model of `_has_shell_operator`. -/
def has_shell_operator (command : String) : Bool :=
  ["|", "&&", "||", ";", ">", "<"].any (fun op => strContains command op)

/-- Model of `_looks_like_env_assignment`. -/
def looks_like_env_assignment (t : String) : Bool :=
  strHasChar t '=' && !strStartsWith t "./" && !strStartsWith t "../" &&
    !strStartsWith t "/" && !strHasChar t '/'

/-- Model of `_looks_like_path` (POSIX: no `altsep`). -/
def looks_like_path (t : String) : Bool :=
  t ≠ "" && (strStartsWith t "./" || strStartsWith t "../" || strStartsWith t "/" ||
    strStartsWith t "~" || strHasChar t '/')

/-- Model of `os.path.basename` on POSIX. -/
def basename (p : String) : String :=
  ⟨(p.data.reverse.takeWhile (· ≠ '/')).reverse⟩

/-- Model of `_has_background_execution`: a single unescaped trailing `&`. -/
def has_background_execution (command : String) : Bool :=
  let stripped := pyRStrip command
  stripped ≠ "" && stripped.data.getLast? = some '&' &&
    stripped.data.dropLast.getLast? ≠ some '&'

/-- Model of `_resolve_local_executable`.  `os.path.abspath` is modelled as
a plain join with the tracked working directory (no dot-segment folding);
the executability of the resulting path comes from the oracle. -/
def resolve_local_executable (fs : FS) (st : ExecState) (command : String) :
    Option String :=
  match shlexSplit command with
  | none => none
  | some tokens =>
    match tokens.dropWhile looks_like_env_assignment with
    | [] => none
    | candidate :: _ =>
      if candidate = "" then none
      else if !looks_like_path candidate then none
      else
        let expanded := expanduser fs.home candidate
        let expanded2 :=
          if strStartsWith expanded "/" then expanded else joinPath st.cwd expanded
        if fs.isExecFile expanded2 then some expanded2 else none

/-- Model of `_is_local_executable_invocation`. -/
def is_local_executable_invocation (fs : FS) (st : ExecState)
    (command : String) : Bool :=
  pyStrip command ≠ "" && !has_shell_operator command &&
    (resolve_local_executable fs st command).isSome

/-- Model of `_is_recursive_ls`. -/
def is_recursive_ls (command : String) : Bool :=
  match shlexSplit command with
  | none => false
  | some tokens =>
    match tokens.dropWhile looks_like_env_assignment with
    | [] => false
    | t0 :: rest1 =>
      let cmdAndRest : String × List String :=
        if basename t0 = "sudo" then
          match rest1 with
          | r :: rs => (r, rs)
          | [] => (t0, rest1)
        else (t0, rest1)
      if basename cmdAndRest.1 ≠ "ls" then false
      else cmdAndRest.2.any (fun tok =>
        tok ≠ "--" && strStartsWith tok "-" && strHasChar tok 'R')

/-- Python `str.split()` (runs of whitespace, no empty fields). -/
def splitWsAux : List Char → List Char → List String → List String
  | [], cur, acc =>
    (if cur ≠ [] then (⟨cur.reverse⟩ :: acc) else acc).reverse
  | c :: rest, cur, acc =>
    if pyIsSpace c then
      if cur ≠ [] then splitWsAux rest [] (⟨cur.reverse⟩ :: acc)
      else splitWsAux rest [] acc
    else splitWsAux rest (c :: cur) acc

/-- Python `str.split()`. -/
def pySplitWs (s : String) : List String := splitWsAux s.data [] []

/-- Python `str.split(sep)` for a one-character separator (keeps empty
fields). -/
def splitOnCharAux (c : Char) : List Char → List Char → List String →
    List String
  | [], cur, acc => (⟨cur.reverse⟩ :: acc).reverse
  | d :: rest, cur, acc =>
    if d = c then splitOnCharAux c rest [] (⟨cur.reverse⟩ :: acc)
    else splitOnCharAux c rest (d :: cur) acc

/-- Python `s.split(c)`. -/
def splitOnChar (c : Char) (s : String) : List String :=
  splitOnCharAux c s.data [] []

/-- Static context of the classifier: file-system oracle, the configured
interactive-command set, whether the embedded script console is active, and
the outcome of arithmetic-expansion evaluation by the underlying shell. -/
structure ClassifyCtx where
  fs : FS
  interactive_commands : List String
  script_active : Bool
  arith : String → Option String

/-- Pipe-segment scan of `_is_interactive_command` (lines 238-242); `none`
models the `IndexError` an empty segment raises (caught at the dispatcher
boundary). -/
def pipeScan (ctx : ClassifyCtx) : List String → Option Bool
  | [] => some false
  | part :: rest =>
    match pySplitWs (pyStrip part) with
    | [] => none
    | w :: _ =>
      if ctx.interactive_commands.contains w then some true
      else pipeScan ctx rest

/-- Model of `_is_interactive_command`; `none` models the `IndexError`
paths. -/
def is_interactive_command (ctx : ClassifyCtx) (st : ExecState)
    (command : String) : Option Bool :=
  if is_local_executable_invocation ctx.fs st command then some true
  else if has_background_execution command then some true
  else if is_recursive_ls command then some true
  else
    match pySplitWs (pyStrip command) with
    | [] => none
    | b0 :: _ =>
      let base := basename b0
      if base = "jobs" || base = "fg" || base = "bg" then some true
      else if ctx.interactive_commands.contains base then some true
      else if strHasChar command '|' then pipeScan ctx (splitOnChar '|' command)
      else some false

/-! ## Command classification (`ShellCommandExecutor.execute`, lines
61-161)

The dispatcher is modelled as a decision function: which handler a line
reaches.  The handlers' state effects are modelled separately above. -/

/-- Dispatch decision, one constructor per handler the `execute` chain can
reach.  `errorCaught` models an exception escaping a handler and being
caught by the dispatcher's error boundary. -/
inductive Decision where
  | empty
  | helpD
  | configReload
  | cleanupMemory
  | envCmd
  | scriptCmd
  | scriptShortcut
  | scriptLine
  | aliasMgmt
  | exportCmd
  | unsetCmd
  | assignmentOnly
  | filesCmd
  | jobControl
  | exitD
  | clearScreen
  | changeDir
  | cdViaShell
  | sourceCmd
  | deactivateCmd
  | activateCmd
  | interactive
  | autoCd
  | regular
  | errorCaught
deriving DecidableEq

/-- Script-mode toggle lines handled by `_handle_script_commands`. -/
def handles_script_commands (normalized : String) : Bool :=
  normalized = "py" || normalized = "exitpy" || strStartsWith normalized "py "

/-- Trigger of `_handle_alias_management`. -/
def alias_management_triggers (normalized : String) : Bool :=
  normalized = "alias" || strStartsWith normalized "alias " ||
    strStartsWith normalized "unalias"

/-- Boolean result of `_handle_assignment_only` (whether the line is
consumed as a pure assignment; the arithmetic-expansion delegation outcome
comes from the oracle). -/
def handle_assignment_only_check (ctx : ClassifyCtx) (command : String) :
    Bool :=
  if !strHasChar command '=' || strStartsWith command "alias" then false
  else
    let tokens := (shlexSplit command).getD []
    if tokens = [] then false
    else if tokens.all (fun t => strHasChar t '=') then
      tokens.all (fun t => is_valid_identifier (eqName t))
    else
      match tokens with
      | [] => false
      | t0 :: rest =>
        if strHasChar t0 '=' then
          let name := eqName t0
          if !is_valid_identifier name then false
          else
            let full_value := String.intercalate " " (eqValue t0 :: rest)
            if strContains full_value "$((" && strContains full_value "))" then
              (ctx.arith full_value).isSome
            else false
        else false

/-- Classification from the `files` builtin check onward (executor.py lines
108-154): the part of the chain that runs on the alias-expanded line. -/
def classifyFrom8 (ctx : ClassifyCtx) (st : ExecState) (command : String) :
    Decision :=
  let normalized := pyStrip command
  if strStartsWith normalized "files" then .filesCmd
  else if normalized = "jobs" || normalized = "fg" || normalized = "bg" ||
      strStartsWith normalized "fg " || strStartsWith normalized "bg " then
    .jobControl
  else if normalized = "exit" then .exitD
  else if normalized = "clear" then .clearScreen
  else if normalized = "cd" || strStartsWith normalized "cd " then
    if has_shell_operator command then .cdViaShell else .changeDir
  else if strStartsWith normalized "source " then .sourceCmd
  else if normalized = "deactivate" then .deactivateCmd
  else if strEndsWith normalized "/activate" || strEndsWith normalized "\\activate" ||
      strStartsWith normalized "activate " then
    .activateCmd
  else
    match is_interactive_command ctx st command with
    | none => .errorCaught
    | some true => .interactive
    | some false =>
      if (handle_auto_cd ctx.fs st normalized).isSome then .autoCd
      else .regular

/-- Steps 1-6 of the chain (everything `execute` tries before alias
expansion); `none` means all of them declined the line. -/
def preExpandSteps (ctx : ClassifyCtx) (command : String) : Option Decision :=
  if pyStrip command = "" then some .empty
  else
    let normalized := pyStrip command
    if normalized = "/help" then some .helpD
    else if normalized = "/config_reload" || normalized = "config_reload" then
      some .configReload
    else if normalized = "/cleanup_memory" then some .cleanupMemory
    else if strStartsWith command "!" then some .envCmd
    else if handles_script_commands normalized then some .scriptCmd
    else if ctx.script_active then
      some (if normalized = "exit" || normalized = "exit()" ||
          normalized = "quit" || normalized = "quit()" ||
          normalized = "clear" || normalized = "cancel" then
        .scriptShortcut
      else .scriptLine)
    else if alias_management_triggers normalized then some .aliasMgmt
    else if strStartsWith normalized "export" then some .exportCmd
    else if strStartsWith normalized "unset " then some .unsetCmd
    else if handle_assignment_only_check ctx normalized then
      some .assignmentOnly
    else none

/-- Model of the routing performed by `ShellCommandExecutor.execute`. -/
def classify (ctx : ClassifyCtx) (st : ExecState) (command : String) :
    Decision :=
  match preExpandSteps ctx command with
  | some d => d
  | none => classifyFrom8 ctx st (expand_alias st command)

/-- Classification restarted from step 4 (alias management) on an
already-expanded line, with no further expansion: the behaviour the claim
about alias expansion ascribes to the dispatcher. -/
def classifyFrom4 (ctx : ClassifyCtx) (st : ExecState) (command : String) :
    Decision :=
  let normalized := pyStrip command
  if alias_management_triggers normalized then .aliasMgmt
  else if strStartsWith normalized "export" then .exportCmd
  else if strStartsWith normalized "unset " then .unsetCmd
  else if handle_assignment_only_check ctx normalized then .assignmentOnly
  else classifyFrom8 ctx st command

/-! ## Session traces -/

/-- State of a fresh `ShellCommandExecutor` (`__init__`, lines 25-46):
empty job table and selection queue, `next_job_id = 1`, no foreground job,
aliases loaded from the persisted file, previous directory initialised to
the current one. -/
def initialState (cwd : String) (aliasFile : Option String) : ExecState :=
  { jobs := [], task_queue := [], next_job_id := 1, foreground_job := none,
    aliases := load_aliases aliasFile, env := [], cwd := cwd,
    previous_directory := cwd, alias_file := aliasFile,
    terminal_transferred_to := none }

/-- The job-control operations that touch the job table, each packaged with
the OS outcomes it consumes. -/
inductive ShellOp where
  | launch (cmd : String) (o : LaunchOracle) (now : Nat)
  | fgOp (jobId : Int) (o : FgOracle)
  | bgOp (jobId : Int) (killpgOk killOk : Bool)
  | suspendOp (killpgOk killOk : Bool)
  | interruptOp (killpgOk killOk : Bool)
  | monitorOp (jobId : Int) (poll : Option Int) (now : Nat)
  | cleanupOp

/-- State transition of one operation. -/
def stepOp (st : ExecState) : ShellOp → ExecState
  | .launch cmd o now => (execute_background_command st cmd o now).1
  | .fgOp j o => bring_job_to_foreground st j o
  | .bgOp j kp k => resume_background_job st j kp k
  | .suspendOp kp k => (suspend_foreground_job st kp k).1
  | .interruptOp kp k => (interrupt_foreground_job st kp k).1
  | .monitorOp j p n => monitor_step st j p n
  | .cleanupOp => cleanup_all_jobs st

/-- Run a trace of operations. -/
def runOps (st : ExecState) (ops : List ShellOp) : ExecState :=
  ops.foldl stepOp st

/-- Job ids handed out by the background launches of a trace, in launch
order (an id is handed out once `next_job_id` has been read, even if the
process spawn then fails). -/
def launchIds : ExecState → List ShellOp → List Int
  | _, [] => []
  | st, op :: rest =>
    match op with
    | .launch cmd o now =>
      let r := execute_background_command st cmd o now
      match r.2.1 with
      | some j => j :: launchIds r.1 rest
      | none => launchIds r.1 rest
    | _ => launchIds (stepOp st op) rest

/-! ## String-level wrappers for the remaining handlers -/

/-- Model of `_handle_unset_command` after its `unset ` prefix trigger
matched. -/
def handle_unset_command (st : ExecState) (command : String) :
    ExecState × List UIEvent :=
  match shlexSplit command with
  | none => (st, [UIEvent.errorEv command "unset: tokenisation error"])
  | some toks => handle_unset_tokens st toks

/-- Model of `_handle_export_command` after its `export` prefix trigger
matched. -/
def handle_export_command (st : ExecState) (command : String) :
    ExecState × List UIEvent :=
  match shlexSplit command with
  | none => (st, [UIEvent.errorEv command "export: tokenisation error"])
  | some toks => handle_export_tokens st toks

/-! ## Claim-side definitions (refinement counterparts)

These definitions follow the wording of the specification, to be compared
with the definitions translated from the source. -/

/-- Job-spec resolution as the specification words it: `%+`/`+` is the most
recently inserted job, `%-`/`-` the second-most-recent, `%N`/`N` (a decimal
numeral) the job with id `N` when present, anything else no job. -/
def claimC1_resolve (st : ExecState) (spec : String) : Option Int :=
  if spec = "+" || spec = "%+" then st.task_queue.head?
  else if spec = "-" || spec = "%-" then st.task_queue[1]?
  else
    let num := if strStartsWith spec "%" then strDrop spec 1 else spec
    match strToNatQ num with
    | some n => if (dictGet st.jobs (Int.ofNat n)).isSome then
        some (Int.ofNat n)
      else none
    | none => none

/-- Job-spec resolution as amended: the numeric case accepts exactly the
strings Python's `int()` accepts (optional surrounding whitespace, optional
sign, digits with underscore separators), the whole spec is stripped first,
and a single leading `%` is dropped before numeric parsing. -/
def amendedC1_resolve (st : ExecState) (spec : String) : Option Int :=
  let t := pyStrip spec
  if t = "+" || t = "%+" then st.task_queue.head?
  else if t = "-" || t = "%-" then st.task_queue[1]?
  else
    let num := if strStartsWith t "%" then strDrop t 1 else t
    if num = "" then none
    else
      match pyInt num with
      | some n => if (dictGet st.jobs n).isSome then some n else none
      | none => none

/-- Whether the first token of the line matches a stored alias with a
truthy (nonempty) value — the trigger condition of alias expansion. -/
def firstTokenAliased (st : ExecState) (command : String) : Bool :=
  match shlexSplit command with
  | some (t :: _) => ((dictGet st.aliases t).getD "") ≠ ""
  | _ => false

/-- A token the alias/export validation rejects: no `=`, or an invalid
name before the first `=`. -/
def invalidAssignTok (t : String) : Bool :=
  !strHasChar t '=' || !is_valid_identifier (eqName t)

/-! ## Concrete states and contexts used by witnesses and counterexamples -/

/-- A file-system oracle that knows no executables and no directories. -/
def fsNone : FS :=
  { isDir := fun _ => false, isExecFile := fun _ => false,
    onPath := fun _ => false, home := "/root",
    chdir := fun _ => Except.ok "/somewhere" }

/-- The default `Config.INTERACTIVE_COMMANDS` set (config.py lines 16-52). -/
def defaultInteractiveCommands : List String :=
  ["nano", "vim", "vi", "emacs", "mc", "htop", "top", "fzf", "less", "more",
   "man", "tmux", "screen", "python3", "python", "node", "irb", "psql",
   "mysql", "nvim", "nu", "xonsh", "apt", "sudo", "sqlite3", "redis-cli",
   "mongo", "bash", "zsh", "fish", "jobs", "fg", "bg", "tree", "ping"]

/-- Classifier context with the default interactive set, script mode off,
and failing arithmetic delegation. -/
def ctxDefault : ClassifyCtx :=
  { fs := fsNone, interactive_commands := defaultInteractiveCommands,
    script_active := false, arith := fun _ => none }

/-- Session state with one stored alias `e -> export`. -/
def stAliasE : ExecState :=
  { initialState "/work" none with aliases := [("e", "export")] }

/-- Session state right after launching `sleep 5 &` as job 1 (pid 7,
process group 7). -/
def stOneJob : ExecState :=
  (execute_background_command (initialState "/work" none) "sleep 5 &"
    { popen := some 7, getpgid := some 7 } 0).1

/-- Session state after launching `sleep 9 &` as job 1 on a platform where
`os.getpgid` failed, so no process group was recorded. -/
def stNoPgid : ExecState :=
  (execute_background_command (initialState "/work" none) "sleep 9 &"
    { popen := some 42, getpgid := none } 0).1

/-- `stOneJob` after the shutdown cleanup marked job 1 done with the
sentinel exit code `-1`. -/
def stCleaned : ExecState :=
  cleanup_all_jobs stOneJob

/-- Session state with one environment variable `FOO`. -/
def stEnvFoo : ExecState :=
  { initialState "/work" none with env := [("FOO", "x")] }

/-- The job record created by the launch that produced `stOneJob`. -/
def jobOneRec : Job :=
  { pid := 7, pgid := some 7, hasProcess := true, command := "sleep 5",
    status := .running, start_time := 0, exit_code := none,
    completion_time := none }

/-- Python truthiness of a job's recorded process-group id. -/
def jobPgidTruthy (j : Job) : Bool :=
  match j.pgid with
  | some g => g != 0
  | none => false

/-! ## Auxiliary predicates for the job-id invariant -/

/-- A table rewrite that preserves each entry's key, pid and command. -/
def KeyFix (g : (Int × Job) → (Int × Job)) : Prop :=
  ∀ p, (g p).1 = p.1 ∧ (g p).2.pid = p.2.pid ∧ (g p).2.command = p.2.command

/-- The next job id is unchanged and the job table is rewritten by a
key- and identity-preserving map: the effect every non-launch operation has
on the job table. -/
def JobsShape (st st2 : ExecState) : Prop :=
  st2.next_job_id = st.next_job_id ∧
    ∃ g, KeyFix g ∧ st2.jobs = st.jobs.map g

/-- Invariant: every job-table key is below the id counter (true of the
initial state and preserved by every operation). -/
def invC3 (st : ExecState) : Prop :=
  ∀ k ∈ dictKeys st.jobs, k < st.next_job_id

/-! # Theorems -/

/-! ## Dictionary lemmas -/

theorem dictGet_nil {α β : Type} [DecidableEq α] (k : α) :
    dictGet ([] : List (α × β)) k = none := rfl

theorem dictGet_cons {α β : Type} [DecidableEq α] (p : α × β)
    (l : List (α × β)) (k : α) :
    dictGet (p :: l) k = if p.1 = k then some p.2 else dictGet l k := by
  by_cases h : p.1 = k <;> simp [dictGet, List.find?, h]

theorem dictGet_modify {α β : Type} [DecidableEq α] (l : List (α × β))
    (j k : α) (f : β → β) :
    dictGet (l.map fun p => if p.1 = j then (p.1, f p.2) else p) k =
      if k = j then (dictGet l k).map f else dictGet l k := by
  induction l with
  | nil => simp [dictGet]
  | cons p t ih =>
    by_cases hpj : p.1 = j
    · by_cases hkj : k = j
      · subst hkj
        simp [dictGet_cons, hpj, ih]
      · have hpk : ¬ p.1 = k := fun h => hkj (hpj ▸ h ▸ rfl)
        have hjk : ¬ j = k := fun h => hkj h.symm
        simp [dictGet_cons, hpj, hpk, ih, hkj, hjk]
    · by_cases hpk : p.1 = k
      · have hkj : ¬ k = j := fun h => hpj (h ▸ hpk)
        simp [dictGet_cons, hpj, hpk, ih, hkj]
      · simp [dictGet_cons, hpj, hpk, ih]

theorem dictGet_modifyJob (st : ExecState) (j k : Int) (f : Job → Job) :
    dictGet (modifyJob st j f).jobs k =
      if k = j then (dictGet st.jobs k).map f else dictGet st.jobs k := by
  unfold modifyJob
  exact dictGet_modify st.jobs j k f

/-! ## Claim C1 -/

/-- C1 counterexample: in the reachable state with background job 1, the
spec `+1` is none of `%+`, `+`, `%-`, `-`, `%N`, `N` (for a decimal
numeral `N`), so by the claim it resolves to no job; the code resolves it
to job 1, because `int("+1")` parses the sign. -/
theorem c1_counterexample :
    parse_job_spec stOneJob "+1" = some 1 ∧
      claimC1_resolve stOneJob "+1" = none := by decide

/-- C1 as amended: job-spec resolution follows the claimed grammar with the
numeric case widened to everything Python's `int()` accepts (optional sign,
underscore separators, surrounding whitespace) after stripping the spec and
one leading `%`; and a successful background launch pushes the new job id
onto the front of the selection sequence. -/
theorem c1_amended :
    (∀ (st : ExecState) (spec : String),
      parse_job_spec st spec = amendedC1_resolve st spec) ∧
    (∀ (st : ExecState) (cmd : String) (pid : Int) (pgid : Option Int)
      (now : Nat) (jobId : Int),
      (execute_background_command st cmd
          { popen := some pid, getpgid := pgid } now).2.1 = some jobId →
      (execute_background_command st cmd
          { popen := some pid, getpgid := pgid } now).1.task_queue =
        jobId :: st.task_queue) := by
  constructor
  · intro st spec
    unfold parse_job_spec amendedC1_resolve
    rcases h : st.task_queue with _ | ⟨a, t⟩
    · simp [h]
    · rcases t with _ | ⟨b, t2⟩ <;> simp [h]
  · intro st cmd pid pgid now jobId h
    simp only [execute_background_command] at h ⊢
    split_ifs at h ⊢
    simp_all

/-- Witness for C1 as amended at concrete inputs: `%+` resolves to the most
recent job in `stOneJob`, and the launch that produced `stOneJob` pushed
job 1 to the front of the selection sequence. -/
theorem c1_amended_witness :
    parse_job_spec stOneJob "%+" = amendedC1_resolve stOneJob "%+" ∧
      stOneJob.task_queue = 1 :: (initialState "/work" none).task_queue :=
  ⟨c1_amended.1 stOneJob "%+",
    c1_amended.2 (initialState "/work" none) "sleep 5 &" 7 (some 7) 0 1
      (by decide)⟩

/-! ## Claim C3 -/

theorem keyFix_id : KeyFix (fun p => p) := fun _ => ⟨rfl, rfl, rfl⟩

theorem keyFix_comp {g1 g2 : (Int × Job) → (Int × Job)} (h1 : KeyFix g1)
    (h2 : KeyFix g2) : KeyFix (fun p => g2 (g1 p)) := by
  intro p
  rcases h1 p with ⟨a1, b1, c1⟩
  rcases h2 (g1 p) with ⟨a2, b2, c2⟩
  exact ⟨a2.trans a1, b2.trans b1, c2.trans c1⟩

theorem keyFix_modify (j2 : Int) (f : Job → Job)
    (hf : ∀ x, (f x).pid = x.pid ∧ (f x).command = x.command) :
    KeyFix (fun p => if p.1 = j2 then (p.1, f p.2) else p) := by
  intro p
  by_cases h : p.1 = j2 <;> simp [h, hf p.2]

theorem keyFix_guard (pred : Job → Bool) (g : Job → Job)
    (hg : ∀ x, (g x).pid = x.pid ∧ (g x).command = x.command) :
    KeyFix (fun p => if pred p.2 then (p.1, g p.2) else p) := by
  intro p
  by_cases h : pred p.2 <;> simp [h, hg p.2]

theorem dictGet_map_keyfix {g : (Int × Job) → (Int × Job)} (hg : KeyFix g)
    (l : List (Int × Job)) (k : Int) (jb : Job)
    (hj : dictGet l k = some jb) :
    ∃ jb2, dictGet (l.map g) k = some jb2 ∧ jb2.pid = jb.pid ∧
      jb2.command = jb.command := by
  induction l with
  | nil => simp [dictGet] at hj
  | cons p t ih =>
    rw [dictGet_cons] at hj
    by_cases hp : p.1 = k
    · rw [if_pos hp] at hj
      injection hj with hj2
      refine ⟨(g p).2, ?_, ?_, ?_⟩
      · simp only [List.map_cons]
        rw [dictGet_cons, if_pos ((hg p).1.trans hp)]
      · rw [(hg p).2.1, hj2]
      · rw [(hg p).2.2, hj2]
    · rw [if_neg hp] at hj
      rcases ih hj with ⟨jb2, h1, h2, h3⟩
      refine ⟨jb2, ?_, h2, h3⟩
      simp only [List.map_cons]
      rw [dictGet_cons, if_neg (fun hc => hp ((hg p).1.symm.trans hc))]
      exact h1

theorem dictKeys_map_keyfix {g : (Int × Job) → (Int × Job)} (hg : KeyFix g)
    (l : List (Int × Job)) : dictKeys (l.map g) = dictKeys l := by
  induction l with
  | nil => rfl
  | cons p t ih =>
    simp only [List.map_cons, dictKeys, List.map]
    rw [(hg p).1]
    unfold dictKeys at ih
    rw [ih]

theorem shape_of_eq {st st2 : ExecState}
    (h1 : st2.next_job_id = st.next_job_id) (h2 : st2.jobs = st.jobs) :
    JobsShape st st2 :=
  ⟨h1, fun p => p, keyFix_id, by rw [h2]; simp⟩

theorem shape_refl (st : ExecState) : JobsShape st st :=
  shape_of_eq rfl rfl

theorem shape_modify (st : ExecState) (j2 : Int) (f : Job → Job)
    (hf : ∀ x, (f x).pid = x.pid ∧ (f x).command = x.command) :
    JobsShape st (modifyJob st j2 f) :=
  ⟨rfl, _, keyFix_modify j2 f hf, rfl⟩

theorem shape_trans {st1 st2 st3 : ExecState} (h1 : JobsShape st1 st2)
    (h2 : JobsShape st2 st3) : JobsShape st1 st3 := by
  rcases h1 with ⟨n1, g1, k1, j1⟩
  rcases h2 with ⟨n2, g2, k2, j2⟩
  refine ⟨n2.trans n1, fun p => g2 (g1 p), keyFix_comp k1 k2, ?_⟩
  rw [j2, j1, List.map_map]
  rfl

theorem shape_set_fpg (st : ExecState) (g : Int) (b : Bool) :
    JobsShape st (set_foreground_process_group st g b).1 := by
  unfold set_foreground_process_group
  split
  · exact shape_of_eq rfl rfl
  · exact shape_refl st

theorem preWait_shape (st : ExecState) (j2 : Int) (o : FgOracle) :
    JobsShape st (bring_job_to_foreground_preWait st j2 o).1 := by
  unfold bring_job_to_foreground_preWait
  rcases h2 : dictGet st.jobs j2 with _ | j2b
  · exact shape_refl st
  · dsimp only
    split
    · exact shape_refl st
    · split
      · exact shape_of_eq rfl rfl
      · dsimp only
        split
        · split
          · refine shape_trans (?_ : JobsShape st _) (shape_set_fpg _ _ _)
            split
            · split
              · exact shape_trans (shape_of_eq rfl rfl)
                  (shape_modify _ _ _ (fun x => ⟨rfl, rfl⟩))
              · exact shape_of_eq rfl rfl
            · exact shape_of_eq rfl rfl
          · split
            · split
              · exact shape_trans (shape_of_eq rfl rfl)
                  (shape_modify _ _ _ (fun x => ⟨rfl, rfl⟩))
              · exact shape_of_eq rfl rfl
            · exact shape_of_eq rfl rfl
        · split
          · split
            · exact shape_trans (shape_of_eq rfl rfl)
                (shape_modify _ _ _ (fun x => ⟨rfl, rfl⟩))
            · exact shape_of_eq rfl rfl
          · exact shape_of_eq rfl rfl

theorem bring_shape (st : ExecState) (j2 : Int) (o : FgOracle) :
    JobsShape st (bring_job_to_foreground st j2 o) := by
  have hpre := preWait_shape st j2 o
  unfold bring_job_to_foreground
  rcases hr : bring_job_to_foreground_preWait st j2 o with ⟨st1, reached⟩
  rw [hr] at hpre
  cases reached
  · exact hpre
  · dsimp only
    refine shape_trans hpre ?_
    refine shape_trans (?_ : JobsShape st1 _)
      (shape_modify _ _ _ (fun x => ⟨rfl, rfl⟩))
    split
    · exact shape_of_eq rfl rfl
    · exact shape_of_eq rfl rfl

theorem resume_shape (st : ExecState) (j2 : Int) (kp k : Bool) :
    JobsShape st (resume_background_job st j2 kp k) := by
  unfold resume_background_job
  rcases h2 : dictGet st.jobs j2 with _ | j2b
  · exact shape_refl st
  · dsimp only
    split
    · exact shape_refl st
    · split
      · exact shape_refl st
      · split
        · exact shape_modify _ _ _ (fun x => ⟨rfl, rfl⟩)
        · exact shape_refl st

theorem suspend_shape (st : ExecState) (kp k : Bool) :
    JobsShape st (suspend_foreground_job st kp k).1 := by
  unfold suspend_foreground_job
  split
  · exact shape_refl st
  · rename_i jid hfe
    split
    · exact shape_refl st
    · split
      · exact shape_of_eq rfl rfl
      · split
        · exact shape_refl st
        · split
          · exact shape_trans
              (shape_modify st jid
                (fun jj => { jj with status := JobStatus.stopped })
                (fun x => ⟨rfl, rfl⟩))
              (shape_of_eq rfl rfl)
          · exact shape_refl st

theorem interrupt_shape (st : ExecState) (kp k : Bool) :
    JobsShape st (interrupt_foreground_job st kp k).1 := by
  unfold interrupt_foreground_job
  split
  · exact shape_refl st
  · split
    · exact shape_refl st
    · split
      · exact shape_of_eq rfl rfl
      · split
        · exact shape_refl st
        · split
          · exact shape_of_eq rfl rfl
          · exact shape_refl st

theorem monitor_shape (st : ExecState) (j2 : Int) (poll : Option Int)
    (now : Nat) : JobsShape st (monitor_step st j2 poll now) := by
  unfold monitor_step
  split
  · exact shape_refl st
  · split
    · exact shape_modify _ _ _ (fun x => ⟨rfl, rfl⟩)
    · exact shape_refl st

theorem cleanup_shape (st : ExecState) :
    JobsShape st (cleanup_all_jobs st) := by
  unfold cleanup_all_jobs
  split
  · exact shape_refl st
  · exact ⟨rfl, _, keyFix_guard
      (fun jj => decide (jj.status = JobStatus.running) ||
        decide (jj.status = JobStatus.stopped))
      (fun jj => { jj with status := JobStatus.done, exit_code := some (-1) })
      (fun x => ⟨rfl, rfl⟩), rfl⟩

theorem dictGet_some_mem_keys {α β : Type} [DecidableEq α]
    {d : List (α × β)} {k : α} {v : β} (h : dictGet d k = some v) :
    k ∈ dictKeys d := by
  induction d with
  | nil => simp [dictGet] at h
  | cons p t ih =>
    rw [dictGet_cons] at h
    by_cases hp : p.1 = k
    · simp [dictKeys, hp.symm]
    · rw [if_neg hp] at h
      simp only [dictKeys, List.map_cons, List.mem_cons]
      exact Or.inr (ih h)

theorem dictKeys_append {α β : Type} (d1 d2 : List (α × β)) :
    dictKeys (d1 ++ d2) = dictKeys d1 ++ dictKeys d2 := by
  simp [dictKeys]

theorem dictSet_fresh {α β : Type} [DecidableEq α] (d : List (α × β))
    (k : α) (v : β) (h : k ∉ dictKeys d) : dictSet d k v = d ++ [(k, v)] := by
  unfold dictSet
  rw [if_neg]
  simp only [List.any_eq_true, not_exists, not_and]
  intro p hp
  intro hc
  exact absurd (by
    simp only [dictKeys, List.mem_map]
    exact ⟨p, hp, by simpa using hc⟩) h

theorem dictGet_append_sing {α β : Type} [DecidableEq α]
    (d : List (α × β)) (k2 : α) (v : β) (k : α) (h : ¬ k2 = k) :
    dictGet (d ++ [(k2, v)]) k = dictGet d k := by
  unfold dictGet
  rw [List.find?_append]
  cases hf : d.find? (fun p => p.1 = k)
  · simp [List.find?, h]
  · simp

theorem launch_spec (st : ExecState) (cmd : String) (o : LaunchOracle)
    (now : Nat) :
    ((execute_background_command st cmd o now).2.1 = none ∧
      (execute_background_command st cmd o now).1 = st) ∨
    ((execute_background_command st cmd o now).2.1 = some st.next_job_id ∧
      (execute_background_command st cmd o now).1.next_job_id =
        st.next_job_id + 1 ∧
      ((execute_background_command st cmd o now).1.jobs = st.jobs ∨
        ∃ jb, (execute_background_command st cmd o now).1.jobs =
          dictSet st.jobs st.next_job_id jb)) := by
  unfold execute_background_command
  dsimp only
  split_ifs
  · exact Or.inl ⟨rfl, rfl⟩
  · exact Or.inl ⟨rfl, rfl⟩
  · exact Or.inl ⟨rfl, rfl⟩
  · exact Or.inl ⟨rfl, rfl⟩
  · split
    · exact Or.inr ⟨rfl, rfl, Or.inl rfl⟩
    · exact Or.inr ⟨rfl, rfl, Or.inr ⟨_, rfl⟩⟩

theorem inv_fresh {st : ExecState} (hinv : invC3 st) :
    st.next_job_id ∉ dictKeys st.jobs :=
  fun hmem => absurd (hinv _ hmem) (lt_irrefl _)

theorem inv_launch (st : ExecState) (cmd : String) (o : LaunchOracle)
    (now : Nat) (hinv : invC3 st) :
    invC3 (execute_background_command st cmd o now).1 := by
  rcases launch_spec st cmd o now with ⟨_, hst⟩ | ⟨_, hnext, hjobs⟩
  · rw [hst]
    exact hinv
  · intro k hk
    rw [hnext]
    rcases hjobs with hj | ⟨jb, hj⟩
    · rw [hj] at hk
      have := hinv k hk
      omega
    · rw [hj, dictSet_fresh _ _ _ (inv_fresh hinv), dictKeys_append] at hk
      rcases List.mem_append.mp hk with hk | hk
      · have := hinv k hk
        omega
      · simp [dictKeys] at hk
        omega

theorem launch_entries (st : ExecState) (cmd : String) (o : LaunchOracle)
    (now : Nat) (hinv : invC3 st) (k : Int) (jb : Job)
    (hj : dictGet st.jobs k = some jb) :
    dictGet (execute_background_command st cmd o now).1.jobs k = some jb := by
  rcases launch_spec st cmd o now with ⟨_, hst⟩ | ⟨_, _, hjobs⟩
  · rw [hst]
    exact hj
  · rcases hjobs with hje | ⟨jb2, hje⟩
    · rw [hje]
      exact hj
    · rw [hje, dictSet_fresh _ _ _ (inv_fresh hinv),
        dictGet_append_sing]
      · exact hj
      · intro hc
        have hmem := dictGet_some_mem_keys hj
        rw [← hc] at hmem
        exact inv_fresh hinv hmem

theorem shape_inv {st st2 : ExecState} (h : JobsShape st st2)
    (hinv : invC3 st) : invC3 st2 := by
  rcases h with ⟨hn, g, hg, hjobs⟩
  intro k hk
  rw [hn]
  rw [hjobs, dictKeys_map_keyfix hg] at hk
  exact hinv k hk

theorem shape_entries {st st2 : ExecState} (h : JobsShape st st2) :
    ∀ k jb, dictGet st.jobs k = some jb →
      ∃ jb2, dictGet st2.jobs k = some jb2 ∧ jb2.pid = jb.pid ∧
        jb2.command = jb.command := by
  rcases h with ⟨hn, g, hg, hjobs⟩
  intro k jb hj
  rw [hjobs]
  exact dictGet_map_keyfix hg st.jobs k jb hj

theorem stepOp_shape_nonlaunch (st : ExecState) (op : ShellOp)
    (h : ∀ cmd o now, op ≠ .launch cmd o now) :
    JobsShape st (stepOp st op) := by
  cases op with
  | launch cmd o now => exact absurd rfl (h cmd o now)
  | fgOp j2 o => exact bring_shape st j2 o
  | bgOp j2 kp k => exact resume_shape st j2 kp k
  | suspendOp kp k => exact suspend_shape st kp k
  | interruptOp kp k => exact interrupt_shape st kp k
  | monitorOp j2 poll now => exact monitor_shape st j2 poll now
  | cleanupOp => exact cleanup_shape st

/-- C3: from any state satisfying the key invariant (which the initial
state does), the job ids handed out by the background launches of any
operation trace are strictly increasing in launch order; and no job-table
entry is ever deleted or reassigned — every existing entry survives every
trace with its pid and command intact (only status/exit fields change). -/
theorem c3_job_ids : ∀ (ops : List ShellOp) (st : ExecState), invC3 st →
    List.Chain' (· < ·) (launchIds st ops) ∧
    (∀ x ∈ launchIds st ops, st.next_job_id ≤ x) ∧
    (∀ k jb, dictGet st.jobs k = some jb →
      ∃ jb2, dictGet (runOps st ops).jobs k = some jb2 ∧
        jb2.pid = jb.pid ∧ jb2.command = jb.command) := by
  intro ops
  induction ops with
  | nil =>
    intro st _
    refine ⟨by simp [launchIds], by simp [launchIds], ?_⟩
    intro k jb hj
    exact ⟨jb, hj, rfl, rfl⟩
  | cons op rest ih =>
    intro st hinv
    have key : ∀ (st2 : ExecState), JobsShape st st2 →
        List.Chain' (· < ·) (launchIds st2 rest) ∧
        (∀ x ∈ launchIds st2 rest, st.next_job_id ≤ x) ∧
        (∀ k jb, dictGet st.jobs k = some jb →
          ∃ jb2, dictGet (runOps st2 rest).jobs k = some jb2 ∧
            jb2.pid = jb.pid ∧ jb2.command = jb.command) := by
      intro st2 hshape
      have IH := ih st2 (shape_inv hshape hinv)
      refine ⟨IH.1, ?_, ?_⟩
      · intro x hx
        have h1 := IH.2.1 x hx
        have h2 := hshape.1
        omega
      · intro k jb hj
        rcases shape_entries hshape k jb hj with ⟨jb2, h1, h2, h3⟩
        rcases IH.2.2 k jb2 h1 with ⟨jb3, g1, g2, g3⟩
        exact ⟨jb3, g1, g2.trans h2, g3.trans h3⟩
    cases op with
    | launch cmd o now =>
      have hinv2 : invC3 (execute_background_command st cmd o now).1 :=
        inv_launch st cmd o now hinv
      have IH := ih (execute_background_command st cmd o now).1 hinv2
      rcases launch_spec st cmd o now with ⟨hnone, hst⟩ | ⟨hsome, hnext, _⟩
      · have hids : launchIds st (ShellOp.launch cmd o now :: rest) =
            launchIds (execute_background_command st cmd o now).1 rest := by
          simp only [launchIds]
          rw [hnone]
        have hrun : runOps st (ShellOp.launch cmd o now :: rest) =
            runOps (execute_background_command st cmd o now).1 rest := rfl
        rw [hids, hrun, hst]
        exact ih st hinv
      · have hids : launchIds st (ShellOp.launch cmd o now :: rest) =
            st.next_job_id ::
              launchIds (execute_background_command st cmd o now).1 rest := by
          simp only [launchIds]
          rw [hsome]
        have hrun : runOps st (ShellOp.launch cmd o now :: rest) =
            runOps (execute_background_command st cmd o now).1 rest := rfl
        rw [hids, hrun]
        refine ⟨?_, ?_, ?_⟩
        · rw [List.chain'_cons']
          refine ⟨?_, IH.1⟩
          intro b hb
          have hbmem := List.mem_of_mem_head? hb
          have hbb := IH.2.1 b hbmem
          rw [hnext] at hbb
          omega
        · intro x hx
          rcases List.mem_cons.mp hx with hx | hx
          · omega
          · have hxx := IH.2.1 x hx
            rw [hnext] at hxx
            omega
        · intro k jb hj
          exact IH.2.2 k jb (launch_entries st cmd o now hinv k jb hj)
    | fgOp j2 o => exact key _ (bring_shape st j2 o)
    | bgOp j2 kp k => exact key _ (resume_shape st j2 kp k)
    | suspendOp kp k => exact key _ (suspend_shape st kp k)
    | interruptOp kp k => exact key _ (interrupt_shape st kp k)
    | monitorOp j2 poll now => exact key _ (monitor_shape st j2 poll now)
    | cleanupOp => exact key _ (cleanup_shape st)

/-- Witness for C3: two concrete launches from the initial state receive
ids 1 and 2, and the theorem's strict-increase conclusion applies to them.
-/
theorem c3_job_ids_witness :
    launchIds (initialState "/work" none)
      [ShellOp.launch "a &" { popen := some 5, getpgid := some 5 } 0,
       ShellOp.launch "b &" { popen := some 6, getpgid := some 6 } 1] =
      [1, 2] ∧
    List.Chain' (· < ·) (launchIds (initialState "/work" none)
      [ShellOp.launch "a &" { popen := some 5, getpgid := some 5 } 0,
       ShellOp.launch "b &" { popen := some 6, getpgid := some 6 } 1]) :=
  ⟨by decide,
    (c3_job_ids
      [ShellOp.launch "a &" { popen := some 5, getpgid := some 5 } 0,
       ShellOp.launch "b &" { popen := some 6, getpgid := some 6 } 1]
      (initialState "/work" none)
      (by intro k hk; simp [initialState, dictKeys] at hk)).1⟩

/-! ## Claim C4 -/

/-- C4 counterexample: with the stored alias `e -> export`, the line
`e FOO=1` expands to `export FOO=1`.  Restarting classification from step 4
(alias management, then export/unset/assignment, and onward), as the claim
says, would dispatch the expanded line to the export handler; the
dispatcher actually resumes at the files-builtin check and classifies it as
a regular captured command. -/
theorem c4_counterexample :
    expand_alias stAliasE "e FOO=1" = "export FOO=1" ∧
      classify ctxDefault stAliasE "e FOO=1" = .regular ∧
      classifyFrom4 ctxDefault stAliasE
        (expand_alias stAliasE "e FOO=1") = .exportCmd ∧
      classify ctxDefault stAliasE "e FOO=1" ≠
        classifyFrom4 ctxDefault stAliasE
          (expand_alias stAliasE "e FOO=1") := by
  decide

/-- C4 as amended: for every input line whose first token matches a stored
alias (with a truthy value) and which none of the earlier steps (literal
builtins, script commands, alias management, export, unset, pure
assignment) consumed, the dispatcher replaces the first token by the alias
value, re-quotes the remaining tokens, and continues classification from
the files-builtin step (step 8) onward on the expanded line; the expansion
is applied exactly once — `classifyFrom8` performs no further expansion. -/
theorem c4_amended (ctx : ClassifyCtx) (st : ExecState)
    (command t0 v : String) (rest : List String)
    (hsplit : shlexSplit command = some (t0 :: rest))
    (halias : dictGet st.aliases t0 = some v) (hv : ¬ v = "")
    (hpre : preExpandSteps ctx command = none) :
    expand_alias st command =
      pyStrip (v ++ " " ++ String.intercalate " " (rest.map shlexQuote)) ∧
    classify ctx st command =
      classifyFrom8 ctx st (expand_alias st command) := by
  constructor
  · unfold expand_alias
    rw [hsplit]
    dsimp only
    rw [halias]
    dsimp only
    rw [if_neg hv]
  · unfold classify
    rw [hpre]

/-- Witness for C4 as amended at the concrete line `e FOO=1` with alias
`e -> export`. -/
theorem c4_amended_witness :
    expand_alias stAliasE "e FOO=1" =
      pyStrip ("export" ++ " " ++ String.intercalate " "
        (["FOO=1"].map shlexQuote)) ∧
    classify ctxDefault stAliasE "e FOO=1" =
      classifyFrom8 ctxDefault stAliasE (expand_alias stAliasE "e FOO=1") :=
  c4_amended ctxDefault stAliasE "e FOO=1" "e" "export" ["FOO=1"]
    (by decide) (by decide) (by decide) (by decide)

/-! ## Claim C5 -/

/-- C5 counterexample: in the reachable state where `os.getpgid` failed at
launch (so job 1 is tracked with no recorded process group), signal
delivery reports failure even when both OS delivery primitives would
succeed — in particular when single-process delivery would succeed — so the
operation does not fall back to pid delivery and does not report failure
"only when both delivery attempts fail". -/
theorem c5_counterexample :
    (dictGet stNoPgid.jobs 1).isSome = true ∧
      send_signal_to_job stNoPgid 1 15 true true = false ∧
      send_signal_to_job stNoPgid 1 15 false true = false := by decide

/-- C5 as amended: for a tracked job with a truthy (present, nonzero)
process-group id and a nonzero pid, delivery succeeds exactly when group
delivery succeeds or the pid fallback succeeds; for a tracked job whose
recorded pgid is missing/zero or whose pid is zero, the operation reports
failure without attempting either delivery. -/
theorem c5_amended (st : ExecState) (jobId : Int) (sig : Int) (kp k : Bool)
    (j : Job) (hj : dictGet st.jobs jobId = some j) :
    (jobPgidTruthy j = true → j.pid ≠ 0 →
      send_signal_to_job st jobId sig kp k = (kp || k)) ∧
    (jobPgidTruthy j = false ∨ j.pid = 0 →
      send_signal_to_job st jobId sig kp k = false) := by
  unfold send_signal_to_job
  rw [hj]
  constructor
  · intro h1 h2
    rcases hp : j.pgid with _ | g
    · simp [jobPgidTruthy, hp] at h1
    · have hg : ¬ g = 0 := by
        simpa [jobPgidTruthy, hp] using h1
      simp only [hp, hg, h2]
      cases kp <;> cases k <;> simp [hg]
  · intro h1
    rcases hp : j.pgid with _ | g
    · simp [hp]
    · rcases h1 with h1 | h1
      · have hg : g = 0 := by
          simpa [jobPgidTruthy, hp] using h1
        simp [hp, hg]
      · simp [hp, h1]

/-- Witness for C5 as amended: in `stOneJob` (pgid 7, pid 7), failed group
delivery with a successful pid fallback reports success. -/
theorem c5_amended_witness :
    send_signal_to_job stOneJob 1 15 false true = (false || true) :=
  (c5_amended stOneJob 1 15 false true jobOneRec (by decide)).1
    (by decide) (by decide)

/-! ## Claim C8 -/

/-- C8 counterexample: the line `unset 1bad FOO` contains the syntactically
invalid token `1bad`, yet the handler reports no error, is not aborted, and
mutates state: the valid earlier/later token `FOO` is removed from the
environment. -/
theorem c8_counterexample :
    invalidAssignTok "1bad" = true ∧
      stEnvFoo.env = [("FOO", "x")] ∧
      (handle_unset_command stEnvFoo "unset 1bad FOO").1.env = [] ∧
      ((handle_unset_command stEnvFoo "unset 1bad FOO").2.all
        (fun e => !e.isError)) = true := by decide

theorem collectAliasUpdates_error {l : List String}
    (h : ∃ t ∈ l, invalidAssignTok t = true) :
    ∃ e, collectAliasUpdates l = .error e := by
  induction l with
  | nil => simp at h
  | cons t rest ih =>
    by_cases h1 : strHasChar t '='
    · by_cases h2 : is_valid_identifier (eqName t)
      · have hrest : ∃ x ∈ rest, invalidAssignTok x = true := by
          rcases h with ⟨x, hx, hxi⟩
          rcases List.mem_cons.mp hx with hx2 | hx2
          · subst hx2
            simp [invalidAssignTok, h1, h2] at hxi
          · exact ⟨x, hx2, hxi⟩
        rcases ih hrest with ⟨e, he⟩
        refine ⟨e, ?_⟩
        simp [collectAliasUpdates, h1, h2, he, Except.map]
      · refine ⟨"alias: invalid name " ++ eqName t, ?_⟩
        simp [collectAliasUpdates, h1, h2]
    · refine ⟨"alias: invalid definition " ++ t, ?_⟩
      simp [collectAliasUpdates, h1]

theorem collectExportUpdates_error {l : List String}
    (h : ∃ t ∈ l, invalidAssignTok t = true) :
    ∃ e, collectExportUpdates l = .error e := by
  induction l with
  | nil => simp at h
  | cons t rest ih =>
    by_cases h1 : strHasChar t '='
    · by_cases h2 : is_valid_identifier (eqName t)
      · have hrest : ∃ x ∈ rest, invalidAssignTok x = true := by
          rcases h with ⟨x, hx, hxi⟩
          rcases List.mem_cons.mp hx with hx2 | hx2
          · subst hx2
            simp [invalidAssignTok, h1, h2] at hxi
          · exact ⟨x, hx2, hxi⟩
        rcases ih hrest with ⟨e, he⟩
        refine ⟨e, ?_⟩
        simp [collectExportUpdates, h1, h2, he, Except.map]
      · refine ⟨"export: invalid name " ++ eqName t, ?_⟩
        simp [collectExportUpdates, h1, h2]
    · refine ⟨"export: invalid assignment " ++ t, ?_⟩
      simp [collectExportUpdates, h1]

theorem foldl_dictDelete (names : List String)
    (env : List (String × String)) :
    names.foldl (fun d n => dictDelete d n) env =
      env.filter (fun p => !names.contains p.1) := by
  induction names generalizing env with
  | nil => simp
  | cons n ns ih =>
    rw [List.foldl_cons, ih (dictDelete env n)]
    unfold dictDelete
    rw [List.filter_filter]
    apply List.filter_congr
    intro p _
    by_cases hp : p.1 = n <;> simp [hp, List.contains_cons]

/-- C8 as amended: for `alias` and `export` lines, any syntactically
invalid token (missing `=` or invalid name) aborts the whole command with
an inline error and no state mutation, including for valid tokens earlier
on the line; `unset`, however, performs no identifier validation at all: it
silently deletes exactly the named variables that exist (its only aborting
errors are a tokenisation failure and a missing operand). -/
theorem c8_amended :
    (∀ (st : ExecState) (writeOk : Bool) (t0 : String) (rest : List String),
      (∃ t ∈ rest, invalidAssignTok t = true) →
      (handle_alias_tokens st writeOk (t0 :: rest)).1 = st ∧
        (handle_alias_tokens st writeOk (t0 :: rest)).2.any
          UIEvent.isError = true) ∧
    (∀ (st : ExecState) (t0 : String) (rest : List String),
      (∃ t ∈ rest, invalidAssignTok t = true) →
      (handle_export_tokens st (t0 :: rest)).1 = st ∧
        (handle_export_tokens st (t0 :: rest)).2.any
          UIEvent.isError = true) ∧
    (∀ (st : ExecState) (toks : List String), 2 ≤ toks.length →
      (handle_unset_tokens st toks).1.env =
        st.env.filter (fun p => !toks.tail.contains p.1) ∧
      (handle_unset_tokens st toks).1.aliases = st.aliases ∧
      (handle_unset_tokens st toks).2.any UIEvent.isError = false) := by
  refine ⟨?_, ?_, ?_⟩
  · intro st writeOk t0 rest h
    have hne : rest ≠ [] := by
      rcases h with ⟨x, hx, _⟩
      exact List.ne_nil_of_mem hx
    have hlen : ¬ (t0 :: rest).length = 1 := by
      simp only [List.length_cons]
      intro hc
      have h0 : rest.length = 0 := by omega
      exact hne (List.eq_nil_of_length_eq_zero h0)
    rcases collectAliasUpdates_error h with ⟨e, he⟩
    unfold handle_alias_tokens
    simp [hlen, hne, he, UIEvent.isError]
  · intro st t0 rest h
    have hne : rest ≠ [] := by
      rcases h with ⟨x, hx, _⟩
      exact List.ne_nil_of_mem hx
    have hlen : ¬ (t0 :: rest).length = 1 := by
      simp only [List.length_cons]
      intro hc
      have h0 : rest.length = 0 := by omega
      exact hne (List.eq_nil_of_length_eq_zero h0)
    rcases collectExportUpdates_error h with ⟨e, he⟩
    unfold handle_export_tokens
    simp [hlen, hne, he, UIEvent.isError]
  · intro st toks hlen
    have hlen2 : ¬ toks.length < 2 := by omega
    unfold handle_unset_tokens
    simp only [hlen2, if_false]
    refine ⟨?_, ?_, ?_⟩
    · split <;> simp [foldl_dictDelete]
    · split <;> simp [save_aliases]
    · split <;> simp [UIEvent.isError]

/-- Witness for C8 as amended at concrete inputs: `alias ok=1 bad` aborts
with no mutation; `unset FOO` removes exactly `FOO`. -/
theorem c8_amended_witness :
    ((handle_alias_tokens stEnvFoo true ["alias", "ok=1", "bad"]).1 =
        stEnvFoo ∧
      (handle_alias_tokens stEnvFoo true
        ["alias", "ok=1", "bad"]).2.any UIEvent.isError = true) ∧
    (handle_unset_tokens stEnvFoo ["unset", "FOO"]).1.env =
      stEnvFoo.env.filter (fun p => !(["FOO"].contains p.1)) :=
  ⟨c8_amended.1 stEnvFoo true "alias" ["ok=1", "bad"]
      ⟨"bad", by simp, by decide⟩,
    (c8_amended.2.2 stEnvFoo ["unset", "FOO"] (by decide)).1⟩

/-! ## Claim C2 -/

theorem set_fpg_jobs (st : ExecState) (g : Int) (b : Bool) :
    (set_foreground_process_group st g b).1.jobs = st.jobs := by
  unfold set_foreground_process_group
  split <;> rfl

theorem modifyJob_get_ne (st : ExecState) (j2 : Int) (f : Job → Job)
    (j : Int) (h : ¬ j = j2) :
    dictGet (modifyJob st j2 f).jobs j = dictGet st.jobs j := by
  rw [dictGet_modifyJob]
  simp [h]

theorem preWait_entry_stable (st : ExecState) (j2 : Int) (o : FgOracle)
    (j : Int) (jb : Job) (hj : dictGet st.jobs j = some jb)
    (hs : jb.status = .done ∨ jb.status = .failed) :
    dictGet (bring_job_to_foreground_preWait st j2 o).1.jobs j = some jb := by
  have hne : ∀ j2b : Job, dictGet st.jobs j2 = some j2b →
      ¬ (j2b.status = .done ∨ j2b.status = .failed) → ¬ j = j2 := by
    intro j2b h2 hnd hjj
    subst hjj
    rw [hj] at h2
    cases h2
    exact hnd hs
  unfold bring_job_to_foreground_preWait
  rcases h2 : dictGet st.jobs j2 with _ | j2b
  · exact hj
  · dsimp only
    split
    · exact hj
    · rename_i hbF
      have hjj : ¬ j = j2 := by
        refine hne j2b h2 ?_
        intro hd
        apply hbF
        rcases hd with hd | hd <;> simp [hd]
      split
      · exact hj
      · split
        · split
          · rw [set_fpg_jobs]
            split
            · split
              · rw [modifyJob_get_ne _ _ _ _ hjj]
                exact hj
              · exact hj
            · exact hj
          · split
            · split
              · rw [modifyJob_get_ne _ _ _ _ hjj]
                exact hj
              · exact hj
            · exact hj
        · split
          · split
            · rw [modifyJob_get_ne _ _ _ _ hjj]
              exact hj
            · exact hj
          · exact hj

theorem preWait_reached (st : ExecState) (j2 : Int) (o : FgOracle)
    (h : (bring_job_to_foreground_preWait st j2 o).2 = true) :
    ∃ j2b, dictGet st.jobs j2 = some j2b ∧
      ¬ (j2b.status = .done ∨ j2b.status = .failed) := by
  unfold bring_job_to_foreground_preWait at h
  rcases h2 : dictGet st.jobs j2 with _ | j2b
  · rw [h2] at h
    cases h
  · refine ⟨j2b, rfl, ?_⟩
    intro hd
    rw [h2] at h
    have hb : (decide (j2b.status = JobStatus.done) ||
        decide (j2b.status = JobStatus.failed)) = true := by
      rcases hd with hd | hd <;> simp [hd]
    simp [hb] at h

theorem bring_entry_stable (st : ExecState) (j2 : Int) (o : FgOracle)
    (j : Int) (jb : Job) (hj : dictGet st.jobs j = some jb)
    (hs : jb.status = .done ∨ jb.status = .failed) :
    dictGet (bring_job_to_foreground st j2 o).jobs j = some jb := by
  have hpre := preWait_entry_stable st j2 o j jb hj hs
  unfold bring_job_to_foreground
  rcases hr : bring_job_to_foreground_preWait st j2 o with ⟨st1, reached⟩
  rw [hr] at hpre
  cases reached
  · exact hpre
  · dsimp only
    rcases preWait_reached st j2 o (by rw [hr]) with ⟨j2b, h2, hnd⟩
    have hjj : ¬ j = j2 := by
      intro hjj
      subst hjj
      rw [hj] at h2
      cases h2
      exact hnd hs
    rw [modifyJob_get_ne _ _ _ _ hjj]
    split <;> exact hpre

theorem dictGet_map_guard (l : List (Int × Job)) (g : Job → Job)
    (pred : Job → Bool) (j : Int) (jb : Job) (hj : dictGet l j = some jb)
    (hpred : pred jb = false) :
    dictGet (l.map (fun p => if pred p.2 then (p.1, g p.2) else p)) j =
      some jb := by
  induction l with
  | nil => simp [dictGet] at hj
  | cons p t ih =>
    rw [dictGet_cons] at hj
    by_cases hp : p.1 = j
    · rw [if_pos hp] at hj
      injection hj with hj2
      subst hj2
      simp only [List.map_cons]
      rw [if_neg (by simp [hpred])]
      rw [dictGet_cons, if_pos hp]
    · rw [if_neg hp] at hj
      simp only [List.map_cons]
      split
      · rw [dictGet_cons, if_neg hp]
        exact ih hj
      · rw [dictGet_cons, if_neg hp]
        exact ih hj

/-- C2 counterexample: launch `sleep 5 &` as job 1, run the shutdown
cleanup — job 1 is now `done` with recorded exit code `-1` — and then let
the still-running monitor thread observe the terminated process (poll result
`0`): the monitor overwrites the exit code of the already-done job with
`0`, so a done job's recorded exit code is not immutable. -/
theorem c2_counterexample :
    (dictGet stCleaned.jobs 1).map Job.status = some .done ∧
      (dictGet stCleaned.jobs 1).map Job.exit_code = some (some (-1)) ∧
      (dictGet (monitor_step stCleaned 1 (some 0) 9).jobs 1).map Job.status =
        some .done ∧
      (dictGet (monitor_step stCleaned 1 (some 0) 9).jobs 1).map
        Job.exit_code = some (some 0) := by decide

/-- C2 as amended: a job that is done or failed is never modified — status,
exit code, or any other field — by bring-to-foreground, resume-background,
suspend, interrupt, or the shutdown cleanup, whatever their arguments and
OS outcomes; a monitor update also never changes a done job's status, but
it may overwrite the recorded exit code (and completion time) of a done
job, as the counterexample shows. -/
theorem c2_amended (st : ExecState) (j : Int) (jb : Job)
    (hj : dictGet st.jobs j = some jb)
    (hs : jb.status = .done ∨ jb.status = .failed) :
    (∀ j2 o, dictGet (bring_job_to_foreground st j2 o).jobs j = some jb) ∧
    (∀ j2 kp k, dictGet (resume_background_job st j2 kp k).jobs j = some jb) ∧
    (∀ kp k, dictGet (suspend_foreground_job st kp k).1.jobs j = some jb) ∧
    (∀ kp k, dictGet (interrupt_foreground_job st kp k).1.jobs j = some jb) ∧
    dictGet (cleanup_all_jobs st).jobs j = some jb ∧
    (jb.status = .done → ∀ poll now,
      (dictGet (monitor_step st j poll now).jobs j).map Job.status =
        some .done) := by
  refine ⟨?_, ?_, ?_, ?_, ?_, ?_⟩
  · intro j2 o
    exact bring_entry_stable st j2 o j jb hj hs
  · intro j2 kp k
    unfold resume_background_job
    rcases h2 : dictGet st.jobs j2 with _ | j2b
    · exact hj
    · dsimp only
      split
      · exact hj
      · rename_i hbF
        have hjj : ¬ j = j2 := by
          intro hjj
          subst hjj
          rw [hj] at h2
          cases h2
          apply hbF
          rcases hs with hs | hs <;> simp [hs]
        split
        · exact hj
        · split
          · rw [modifyJob_get_ne _ _ _ _ hjj]
            exact hj
          · exact hj
  · intro kp k
    unfold suspend_foreground_job
    rcases hf : st.foreground_job with _ | j2
    · exact hj
    · dsimp only
      split
      · exact hj
      · rcases h2 : dictGet st.jobs j2 with _ | j2b
        · exact hj
        · dsimp only
          split
          · exact hj
          · rename_i hrun
            have hjj : ¬ j = j2 := by
              intro hjj
              subst hjj
              rw [hj] at h2
              cases h2
              rcases hs with hs | hs <;> simp [hs] at hrun
            split
            · dsimp only [restore_terminal_control]
              rw [modifyJob_get_ne _ _ _ _ hjj]
              exact hj
            · exact hj
  · intro kp k
    unfold interrupt_foreground_job
    rcases hf : st.foreground_job with _ | j2
    · exact hj
    · dsimp only
      split
      · exact hj
      · rcases h2 : dictGet st.jobs j2 with _ | j2b
        · exact hj
        · dsimp only
          split
          · exact hj
          · split
            · exact hj
            · exact hj
  · unfold cleanup_all_jobs
    split
    · exact hj
    · dsimp only
      exact dictGet_map_guard st.jobs
        (fun jj => { jj with status := JobStatus.done, exit_code := some (-1) })
        (fun jj => decide (jj.status = JobStatus.running) ||
          decide (jj.status = JobStatus.stopped))
        j jb hj (by rcases hs with hs | hs <;> simp [hs])
  · intro hdone poll now
    rcases poll with _ | code
    · simp [monitor_step, hj, hdone]
    · simp [monitor_step, hj, dictGet_modifyJob]

/-- Witness for C2 as amended: in the cleaned-up state, job 1 (done, exit
code -1) is untouched by a resume-background attempt, and a monitor update
leaves its status done. -/
theorem c2_amended_witness :
    dictGet (resume_background_job stCleaned 1 true true).jobs 1 =
      some { jobOneRec with status := .done, exit_code := some (-1) } ∧
    (dictGet (monitor_step stCleaned 1 (some 0) 9).jobs 1).map Job.status =
      some .done :=
  ⟨(c2_amended stCleaned 1
      { jobOneRec with status := .done, exit_code := some (-1) }
      (by decide) (Or.inl (by decide))).2.1 1 true true,
    (c2_amended stCleaned 1
      { jobOneRec with status := .done, exit_code := some (-1) }
      (by decide) (Or.inl (by decide))).2.2.2.2.2 (by decide) (some 0) 9⟩

/-! ## Claim C6 -/

theorem set_fpg_foreground (st : ExecState) (g : Int) (b : Bool) :
    (set_foreground_process_group st g b).1.foreground_job =
      st.foreground_job := by
  unfold set_foreground_process_group
  split <;> rfl

/-- C6 counterexample: launch `sleep 5 &` (job 1, running, pgid 7) and
bring it to the foreground while the terminal transfer fails (as it does in
any session without terminal control, which the code tolerates): at the
blocking wait the foreground reference is set to job 1 and the job is
running, but terminal ownership was never transferred — contradicting the
invariant that the reference is set only while ownership has been
transferred.  (The launch never transfers the terminal either, yet the
reference is set before the transfer is even attempted.) -/
theorem c6_counterexample :
    (bring_job_to_foreground_preWait stOneJob 1
      { killpgOk := true, killOk := true, transferOk := false,
        waitExit := 0 }).2 = true ∧
    (bring_job_to_foreground_preWait stOneJob 1
      { killpgOk := true, killOk := true, transferOk := false,
        waitExit := 0 }).1.foreground_job = some 1 ∧
    (bring_job_to_foreground_preWait stOneJob 1
      { killpgOk := true, killOk := true, transferOk := false,
        waitExit := 0 }).1.terminal_transferred_to = none ∧
    (dictGet (bring_job_to_foreground_preWait stOneJob 1
      { killpgOk := true, killOk := true, transferOk := false,
        waitExit := 0 }).1.jobs 1).map Job.status = some .running := by
  decide

/-- C6 as amended: bring-to-foreground sets the foreground reference as
soon as it starts attaching a live (not done/failed) job with a process
object — before the continue signal and the terminal transfer, and
regardless of whether either succeeds — and it holds while the shell blocks
in the wait; the reference is cleared when the wait completes, and a
successful suspend also clears it. -/
theorem c6_amended (st : ExecState) (j : Int) (o : FgOracle) (jb : Job)
    (hj : dictGet st.jobs j = some jb)
    (hs : ¬ (jb.status = .done ∨ jb.status = .failed))
    (hp : jb.hasProcess = true) :
    (bring_job_to_foreground_preWait st j o).1.foreground_job = some j ∧
    (bring_job_to_foreground_preWait st j o).2 = true ∧
    (bring_job_to_foreground st j o).foreground_job = none ∧
    (∀ kp k, (suspend_foreground_job st kp k).2 = true →
      (suspend_foreground_job st kp k).1.foreground_job = none) := by
  have hb : (decide (jb.status = JobStatus.done) ||
      decide (jb.status = JobStatus.failed)) = false := by
    rcases not_or.mp hs with ⟨h1, h2⟩
    simp [h1, h2]
  have hpre12 : (bring_job_to_foreground_preWait st j o).1.foreground_job =
      some j ∧ (bring_job_to_foreground_preWait st j o).2 = true := by
    unfold bring_job_to_foreground_preWait
    rw [hj]
    simp only [hb, hp, Bool.false_eq_true, Bool.not_true, if_false]
    constructor
    · split
      · split
        · rw [set_fpg_foreground]
          split
          · split <;> rfl
          · rfl
        · split
          · split <;> rfl
          · rfl
      · split
        · split <;> rfl
        · rfl
    · trivial
  refine ⟨hpre12.1, hpre12.2, ?_, ?_⟩
  · unfold bring_job_to_foreground
    rcases hr : bring_job_to_foreground_preWait st j o with ⟨st1, reached⟩
    have hre : reached = true := by
      have h2 := hpre12.2
      rw [hr] at h2
      exact h2
    subst hre
    rfl
  · intro kp k
    unfold suspend_foreground_job
    split
    · intro h
      simp at h
    · split
      · intro h
        simp at h
      · split
        · intro h
          simp at h
        · split
          · intro h
            simp at h
          · split
            · intro _
              rfl
            · intro h
              simp at h

/-- Witness for C6 as amended: after bringing job 1 of `stOneJob` to the
foreground to completion, the foreground reference is cleared. -/
theorem c6_amended_witness :
    (bring_job_to_foreground stOneJob 1
      { killpgOk := true, killOk := true, transferOk := true,
        waitExit := 0 }).foreground_job = none :=
  (c6_amended stOneJob 1
    { killpgOk := true, killOk := true, transferOk := true, waitExit := 0 }
    jobOneRec (by decide) (by decide) (by decide)).2.2.1

/-! ## Claim C7 -/

/-- C7: for every `cd` command whose target cannot be entered (the
`os.chdir` call fails with an `OSError`), the handler catches the error (so
nothing escapes to the dispatch loop), leaves the whole state — in
particular the working directory and the tracked previous directory —
unchanged, and reports exactly one error message that quotes the OS error
text. -/
theorem c7_cd_failure_preserves_state (fs : FS) (st : ExecState)
    (command err : String)
    (h : fs.chdir (cd_target fs.home st command) = .error err) :
    handle_cd_command fs st command =
      (st, [UIEvent.errorEv command ("cd: " ++ err)]) := by
  unfold handle_cd_command
  simp only []
  rw [h]

/-- Witness for C7 at a concrete failing `cd /nonexistent`. -/
theorem c7_cd_failure_preserves_state_witness :
    handle_cd_command
      { isDir := fun _ => false, isExecFile := fun _ => false,
        onPath := fun _ => false, home := "/root",
        chdir := fun _ => Except.error "No such file or directory" }
      (initialState "/work" none) "cd /nonexistent" =
      (initialState "/work" none,
        [UIEvent.errorEv "cd /nonexistent" "cd: No such file or directory"]) :=
  c7_cd_failure_preserves_state _ _ _ _ rfl

/-! ## Claim C10 -/

/-- C10: a line whose stripped form is exactly `.`, `..` or `-` is handled
by the auto-cd step as `cd .` / `cd ..` / `cd -` unconditionally: the
result is the `cd` handler's, for every file-system oracle (so it does not
depend on the known-command check or on the directory-existence checks
applied to other bare tokens), and the bare `-` resolves to the tracked
previous directory exactly as `cd -` does. -/
theorem c10_auto_cd_special_tokens (fs : FS) (st : ExecState) (cmd : String)
    (h : cmd = "." ∨ cmd = ".." ∨ cmd = "-") :
    handle_auto_cd fs st cmd = some (handle_cd_command fs st ("cd " ++ cmd)) ∧
      cd_target fs.home st "cd -" =
        (if st.previous_directory = "" then expanduser fs.home "~"
         else st.previous_directory) := by
  refine ⟨?_, rfl⟩
  rcases h with h | h | h <;> subst h <;> rfl

/-- Witness for C10 at the concrete token `-` (and an oracle that knows no
commands and no directories). -/
theorem c10_auto_cd_special_tokens_witness :
    handle_auto_cd
      { isDir := fun _ => false, isExecFile := fun _ => false,
        onPath := fun _ => false, home := "/root",
        chdir := fun _ => Except.ok "/old" }
      (initialState "/work" none) "-" =
      some (handle_cd_command
        { isDir := fun _ => false, isExecFile := fun _ => false,
          onPath := fun _ => false, home := "/root",
          chdir := fun _ => Except.ok "/old" }
        (initialState "/work" none) "cd -") :=
  (c10_auto_cd_special_tokens _ _ _ (Or.inr (Or.inr rfl))).1

/-! ### C9: alias-store round trip (`_save_aliases` / `_load_aliases`)

The development below verifies that parsing inverts rendering at every
level of the JSON model: one hex digit, one `\uXXXX` escape, a surrogate
pair, one escaped character, a whole string literal, one `"key": "value"`
member, the comma-separated member list, and finally the full
`json.dumps(indent=2)` payload, whose interior is untouched by the
`str.strip()` in `_load_aliases`. -/

theorem hexVal_toHexDigit (k : Nat) (h : k < 16) :
    hexVal (toHexDigit k) = some k := by
  interval_cases k <;> decide

theorem hexQuad_toHex4 (n : Nat) (h : n < 0x10000) :
    hexQuadVal (toHex4 n) = n := by
  have h3 : n / 4096 % 16 < 16 := Nat.mod_lt _ (by norm_num)
  have h2 : n / 256 % 16 < 16 := Nat.mod_lt _ (by norm_num)
  have h1 : n / 16 % 16 < 16 := Nat.mod_lt _ (by norm_num)
  have h0 : n % 16 < 16 := Nat.mod_lt _ (by norm_num)
  unfold hexQuadVal toHex4
  rw [List.foldl_cons, List.foldl_cons, List.foldl_cons, List.foldl_cons,
    List.foldl_nil, hexVal_toHexDigit _ h3, hexVal_toHexDigit _ h2,
    hexVal_toHexDigit _ h1, hexVal_toHexDigit _ h0]
  simp only [Option.getD_some]
  omega

theorem body_normal_bs (rest : List Char) (acc : List Char) :
    jsonStrBody (backslashChar :: rest) .normal acc =
      jsonStrBody rest .esc acc := rfl

theorem body_normal_lit (c : Char) (h1 : ¬ c = dquoteChar)
    (h2 : ¬ c = backslashChar) (h3 : ¬ c.toNat < 0x20)
    (rest acc : List Char) :
    jsonStrBody (c :: rest) .normal acc =
      jsonStrBody rest .normal (c :: acc) := by
  conv_lhs => unfold jsonStrBody
  rw [if_neg h1, if_neg h2, if_neg h3]

theorem body_esc_u (rest acc : List Char) :
    jsonStrBody ('u' :: rest) .esc acc =
      jsonStrBody rest (.hex []) acc := rfl

theorem body_esc_simple (e ch : Char) (h : escSimple e = some ch)
    (hu : ¬ e = 'u') (rest acc : List Char) :
    jsonStrBody (e :: rest) .esc acc =
      jsonStrBody rest .normal (ch :: acc) := by
  conv_lhs => unfold jsonStrBody
  rw [if_neg hu, h]

theorem body_hex_step (d : Char) (k : Nat) (hk : hexVal d = some k)
    (ds rest acc : List Char) (hlen : ¬ (ds ++ [d]).length = 4) :
    jsonStrBody (d :: rest) (.hex ds) acc =
      jsonStrBody rest (.hex (ds ++ [d])) acc := by
  conv_lhs => unfold jsonStrBody
  rw [hk]
  dsimp only
  rw [if_neg hlen]

theorem body_lo1_bs (hi : Nat) (rest acc : List Char) :
    jsonStrBody (backslashChar :: rest) (.lo1 hi) acc =
      jsonStrBody rest (.lo2 hi) acc := rfl

theorem body_lo2_u (hi : Nat) (rest acc : List Char) :
    jsonStrBody ('u' :: rest) (.lo2 hi) acc =
      jsonStrBody rest (.lohex hi []) acc := rfl

theorem body_lohex_step (d : Char) (k : Nat) (hk : hexVal d = some k)
    (hi : Nat) (ds rest acc : List Char)
    (hlen : ¬ (ds ++ [d]).length = 4) :
    jsonStrBody (d :: rest) (.lohex hi ds) acc =
      jsonStrBody rest (.lohex hi (ds ++ [d])) acc := by
  conv_lhs => unfold jsonStrBody
  rw [hk]
  dsimp only
  rw [if_neg hlen]

theorem body_u4 (n : Nat) (hn : n < 0x10000)
    (hnotsur : ¬ (0xd800 ≤ n ∧ n ≤ 0xdfff)) (rest acc : List Char) :
    jsonStrBody ((backslashChar :: 'u' :: toHex4 n) ++ rest) .normal acc =
      jsonStrBody rest .normal (Char.ofNat n :: acc) := by
  have h3 : n / 4096 % 16 < 16 := Nat.mod_lt _ (by norm_num)
  have h2 : n / 256 % 16 < 16 := Nat.mod_lt _ (by norm_num)
  have h1 : n / 16 % 16 < 16 := Nat.mod_lt _ (by norm_num)
  have h0 : n % 16 < 16 := Nat.mod_lt _ (by norm_num)
  rw [List.cons_append, List.cons_append, body_normal_bs, body_esc_u]
  unfold toHex4
  rw [List.cons_append,
    body_hex_step _ _ (hexVal_toHexDigit _ h3) _ _ _ (by simp)]
  rw [List.cons_append,
    body_hex_step _ _ (hexVal_toHexDigit _ h2) _ _ _ (by simp)]
  rw [List.cons_append,
    body_hex_step _ _ (hexVal_toHexDigit _ h1) _ _ _ (by simp)]
  rw [List.cons_append]
  conv_lhs => unfold jsonStrBody
  rw [hexVal_toHexDigit _ h0]
  dsimp only
  rw [if_pos (by simp)]
  simp only [List.nil_append, List.singleton_append, List.cons_append]
  have hq : hexQuadVal
      [toHexDigit (n / 4096 % 16), toHexDigit (n / 256 % 16),
       toHexDigit (n / 16 % 16), toHexDigit (n % 16)] = n := by
    have h4 := hexQuad_toHex4 n hn
    unfold toHex4 at h4
    exact h4
  simp only [hq]
  rw [if_neg (by
    simp only [Bool.and_eq_true, decide_eq_true_eq]
    omega)]
  rw [if_neg (by
    simp only [Bool.and_eq_true, decide_eq_true_eq]
    omega)]

theorem body_surr_gen (hi lo : Nat)
    (hhi1 : 0xd800 ≤ hi) (hhi2 : hi ≤ 0xdbff)
    (hlo1 : 0xdc00 ≤ lo) (hlo2 : lo ≤ 0xdfff) (rest acc : List Char) :
    jsonStrBody ((backslashChar :: 'u' :: toHex4 hi) ++
        ((backslashChar :: 'u' :: toHex4 lo) ++ rest)) .normal acc =
      jsonStrBody rest .normal
        (Char.ofNat (0x10000 + (hi - 0xd800) * 1024 + (lo - 0xdc00)) :: acc) := by
  have hhin : hi < 0x10000 := by omega
  have hlon : lo < 0x10000 := by omega
  have h3 : ∀ m : Nat, m / 4096 % 16 < 16 := fun m => Nat.mod_lt _ (by norm_num)
  have h2 : ∀ m : Nat, m / 256 % 16 < 16 := fun m => Nat.mod_lt _ (by norm_num)
  have h1 : ∀ m : Nat, m / 16 % 16 < 16 := fun m => Nat.mod_lt _ (by norm_num)
  have h0 : ∀ m : Nat, m % 16 < 16 := fun m => Nat.mod_lt _ (by norm_num)
  rw [List.cons_append, List.cons_append, body_normal_bs, body_esc_u]
  unfold toHex4
  rw [List.cons_append,
    body_hex_step _ _ (hexVal_toHexDigit _ (h3 hi)) _ _ _ (by simp)]
  rw [List.cons_append,
    body_hex_step _ _ (hexVal_toHexDigit _ (h2 hi)) _ _ _ (by simp)]
  rw [List.cons_append,
    body_hex_step _ _ (hexVal_toHexDigit _ (h1 hi)) _ _ _ (by simp)]
  rw [List.cons_append]
  conv_lhs => unfold jsonStrBody
  rw [hexVal_toHexDigit _ (h0 hi)]
  dsimp only
  rw [if_pos (by simp)]
  simp only [List.nil_append, List.singleton_append, List.cons_append]
  have hqhi : hexQuadVal
      [toHexDigit (hi / 4096 % 16), toHexDigit (hi / 256 % 16),
       toHexDigit (hi / 16 % 16), toHexDigit (hi % 16)] = hi := by
    have h4 := hexQuad_toHex4 hi hhin
    unfold toHex4 at h4
    exact h4
  simp only [hqhi]
  rw [if_pos (by
    simp only [Bool.and_eq_true, decide_eq_true_eq]
    omega)]
  rw [body_lo1_bs, body_lo2_u]
  rw [body_lohex_step _ _ (hexVal_toHexDigit _ (h3 lo)) _ _ _ _ (by simp)]
  rw [body_lohex_step _ _ (hexVal_toHexDigit _ (h2 lo)) _ _ _ _ (by simp)]
  rw [body_lohex_step _ _ (hexVal_toHexDigit _ (h1 lo)) _ _ _ _ (by simp)]
  conv_lhs => unfold jsonStrBody
  rw [hexVal_toHexDigit _ (h0 lo)]
  dsimp only
  rw [if_pos (by simp)]
  simp only [List.nil_append, List.singleton_append, List.cons_append]
  have hqlo : hexQuadVal
      [toHexDigit (lo / 4096 % 16), toHexDigit (lo / 256 % 16),
       toHexDigit (lo / 16 % 16), toHexDigit (lo % 16)] = lo := by
    have h4 := hexQuad_toHex4 lo hlon
    unfold toHex4 at h4
    exact h4
  simp only [hqlo]
  rw [if_pos (by
    simp only [Bool.and_eq_true, decide_eq_true_eq]
    omega)]

theorem body_surr_pair (c : Char) (hc : 0x10000 ≤ c.toNat) (rest acc : List Char) :
    jsonStrBody (((backslashChar :: 'u' ::
        toHex4 (0xd800 + (c.toNat - 0x10000) / 1024)) ++
      (backslashChar :: 'u' ::
        toHex4 (0xdc00 + (c.toNat - 0x10000) % 1024))) ++ rest) .normal acc =
      jsonStrBody rest .normal (c :: acc) := by
  have hup : c.toNat < 0x110000 := by
    have hv : c.toNat.isValidChar := c.valid
    rcases hv with h | ⟨_, h⟩ <;> omega
  have hmod : (c.toNat - 0x10000) % 1024 < 1024 := Nat.mod_lt _ (by norm_num)
  rw [List.append_assoc]
  rw [body_surr_gen _ _ (by omega) (by omega) (by omega) (by omega)]
  have harith : 0x10000 +
      (0xd800 + (c.toNat - 0x10000) / 1024 - 0xd800) * 1024 +
      (0xdc00 + (c.toNat - 0x10000) % 1024 - 0xdc00) = c.toNat := by
    have := Nat.div_add_mod (c.toNat - 0x10000) 1024
    omega
  rw [harith, Char.ofNat_toNat]

theorem body_escape_step (c : Char) (rest acc : List Char) :
    jsonStrBody (jsonEscapeChar c ++ rest) .normal acc =
      jsonStrBody rest .normal (c :: acc) := by
  unfold jsonEscapeChar
  split_ifs with h1 h2 h3 h4 h5 h6 h7 h8 h9
  · subst h1
    simp only [List.cons_append, List.nil_append]
    rw [body_normal_bs, body_esc_simple dquoteChar dquoteChar (by decide) (by decide)]
  · subst h2
    simp only [List.cons_append, List.nil_append]
    rw [body_normal_bs, body_esc_simple backslashChar backslashChar (by decide) (by decide)]
  · subst h3
    simp only [List.cons_append, List.nil_append]
    rw [body_normal_bs, body_esc_simple 'b' '\x08' (by decide) (by decide)]
  · subst h4
    simp only [List.cons_append, List.nil_append]
    rw [body_normal_bs, body_esc_simple 'f' '\x0c' (by decide) (by decide)]
  · subst h5
    simp only [List.cons_append, List.nil_append]
    rw [body_normal_bs, body_esc_simple 'n' '\n' (by decide) (by decide)]
  · subst h6
    simp only [List.cons_append, List.nil_append]
    rw [body_normal_bs, body_esc_simple 'r' '\x0d' (by decide) (by decide)]
  · subst h7
    simp only [List.cons_append, List.nil_append]
    rw [body_normal_bs, body_esc_simple 't' '\t' (by decide) (by decide)]
  · simp only [Bool.and_eq_true, decide_eq_true_eq] at h8
    simp only [List.cons_append, List.nil_append]
    exact body_normal_lit c h1 h2 (by omega) rest acc
  · have hnotsur : ¬ (0xd800 ≤ c.toNat ∧ c.toNat ≤ 0xdfff) := by
      have hv : c.toNat.isValidChar := c.valid
      rcases hv with h | ⟨h, _⟩ <;> omega
    rw [body_u4 c.toNat (by omega) hnotsur, Char.ofNat_toNat]
  · dsimp only
    exact body_surr_pair c (by omega) rest acc

theorem body_encode (cs rest acc : List Char) :
    jsonStrBody ((cs.map jsonEscapeChar).flatten ++ (dquoteChar :: rest))
        .normal acc =
      some (acc.reverse ++ cs, rest) := by
  induction cs generalizing acc with
  | nil =>
    conv_lhs => unfold jsonStrBody
    simp
  | cons c cs ih =>
    simp only [List.map_cons, List.flatten_cons, List.append_assoc]
    rw [body_escape_step, ih]
    simp

theorem parseJsonString_encode (s : String) (rest : List Char) :
    parseJsonString (jsonEncodeString s ++ rest) = some (s.data, rest) := by
  unfold jsonEncodeString parseJsonString
  simp only [List.cons_append]
  rw [if_pos trivial, List.append_assoc, List.singleton_append, body_encode]
  simp

theorem skipJsonWs_cons_ws (c : Char) (l : List Char) (h : jsonWs c = true) :
    skipJsonWs (c :: l) = skipJsonWs l := by
  unfold skipJsonWs
  rw [List.dropWhile_cons, if_pos h]

theorem skipJsonWs_cons_not (c : Char) (l : List Char) (h : jsonWs c = false) :
    skipJsonWs (c :: l) = c :: l := by
  unfold skipJsonWs
  rw [List.dropWhile_cons, if_neg (by simp [h])]

theorem skipJsonWs_encode (s : String) (r : List Char) :
    skipJsonWs (jsonEncodeString s ++ r) = jsonEncodeString s ++ r := by
  unfold jsonEncodeString
  rw [List.cons_append, skipJsonWs_cons_not _ _ (by decide)]

theorem membersAux_ws (fuel : Nat) (c : Char) (l : List Char)
    (h : jsonWs c = true) :
    membersAux fuel (c :: l) = membersAux fuel l := by
  cases fuel with
  | zero => rfl
  | succ f =>
    conv_lhs => unfold membersAux
    conv_rhs => unfold membersAux
    rw [skipJsonWs_cons_ws _ _ h]

theorem member_parse_close (p : String × String) (tail : List Char)
    (fuel : Nat) :
    membersAux (fuel + 1) (renderMember p ++ ('\n' :: rbraceChar :: tail)) =
      some ([p], tail) := by
  conv_lhs => unfold membersAux
  rw [show renderMember p ++ ('\n' :: rbraceChar :: tail) =
      jsonEncodeString p.1 ++
        (':' :: ' ' :: (jsonEncodeString p.2 ++ ('\n' :: rbraceChar :: tail)))
    by simp [renderMember]]
  rw [skipJsonWs_encode, parseJsonString_encode]
  dsimp only
  split
  · rename_i r3 heq
    injection heq with _ h2
    subst h2
    rw [skipJsonWs_cons_ws _ _ (by decide), skipJsonWs_encode,
      parseJsonString_encode]
    dsimp only
    rw [skipJsonWs_cons_ws _ _ (by decide), skipJsonWs_cons_not _ _ (by decide)]
    split
    · rename_i r7 heq2
      rw [List.cons.injEq] at heq2
      exact absurd heq2.1 (by decide)
    · rename_i d r7 hguard heq2
      rw [List.cons.injEq] at heq2
      obtain ⟨h1, h2⟩ := heq2
      subst h1
      subst h2
      rw [if_pos rfl]
    · simp_all
  · rename_i hx heq
    exact (heq _ rfl).elim

theorem member_parse_comma (p : String × String) (Y : List Char)
    (fuel : Nat) :
    membersAux (fuel + 1) (renderMember p ++ (jsep ++ Y)) =
      (membersAux fuel Y).map (fun q => (p :: q.1, q.2)) := by
  conv_lhs => unfold membersAux
  rw [show renderMember p ++ (jsep ++ Y) =
      jsonEncodeString p.1 ++
        (':' :: ' ' :: (jsonEncodeString p.2 ++ (jsep ++ Y)))
    by simp [renderMember]]
  rw [skipJsonWs_encode, parseJsonString_encode]
  dsimp only
  split
  · rename_i r3 heq
    injection heq with _ h2
    subst h2
    rw [skipJsonWs_cons_ws _ _ (by decide), skipJsonWs_encode,
      parseJsonString_encode]
    dsimp only
    rw [show jsep ++ Y = ',' :: '\n' :: ' ' :: ' ' :: Y from rfl]
    rw [skipJsonWs_cons_not _ _ (by decide)]
    split
    · rename_i r7 heq2
      rw [List.cons.injEq] at heq2
      rw [← heq2.2]
      rw [membersAux_ws _ _ _ (by decide), membersAux_ws _ _ _ (by decide),
        membersAux_ws _ _ _ (by decide)]
    · rename_i d r7 hguard heq2
      rw [List.cons.injEq] at heq2
      exact absurd heq2.1.symm hguard
    · simp_all
  · rename_i hx heq
    exact (heq _ rfl).elim

theorem membersAux_render (ps : List (String × String)) :
    ∀ fuel : Nat, ps ≠ [] → ps.length ≤ fuel → ∀ tail : List Char,
    membersAux (fuel + 1)
        (listIntercalate jsep (ps.map renderMember) ++
          ('\n' :: rbraceChar :: tail)) =
      some (ps, tail) := by
  induction ps with
  | nil => intro _ h _; exact absurd rfl h
  | cons p ps ih =>
    intro fuel _ hfuel tail
    cases ps with
    | nil =>
      simp only [List.map_cons, List.map_nil, listIntercalate,
        List.flatten_nil, List.append_nil]
      exact member_parse_close p tail fuel
    | cons q qs =>
      have hsplit : listIntercalate jsep ((p :: q :: qs).map renderMember) =
          renderMember p ++
            (jsep ++ listIntercalate jsep ((q :: qs).map renderMember)) := by
        simp only [List.map_cons, listIntercalate, List.flatten_cons,
          List.append_assoc]
      rw [hsplit]
      simp only [List.append_assoc]
      rw [member_parse_comma]
      cases fuel with
      | zero => simp at hfuel
      | succ f =>
        rw [ih f (by simp) (by simp at hfuel ⊢; omega) tail]
        rfl

theorem flat_len (xs : List (List Char)) :
    xs.length ≤ ((xs.map (fun y => jsep ++ y)).flatten).length := by
  induction xs with
  | nil => simp
  | cons x xs ih =>
    simp only [List.map_cons, List.flatten_cons, List.length_cons,
      List.length_append]
    have h4 : jsep.length = 4 := rfl
    omega

theorem inter_len (p : String × String) (ps : List (String × String)) :
    (p :: ps).length ≤
      (listIntercalate jsep ((p :: ps).map renderMember)).length := by
  simp only [List.map_cons, listIntercalate, List.length_append,
    List.length_cons]
  have h1 : 1 ≤ (renderMember p).length := by
    simp only [renderMember, jsonEncodeString, List.length_append,
      List.length_cons]
    omega
  have h2 := flat_len (ps.map renderMember)
  simp only [List.length_map] at h2
  omega

theorem inter_head (p : String × String) (ps : List (String × String)) :
    listIntercalate jsep ((p :: ps).map renderMember) =
      dquoteChar :: ((p.1.data.map jsonEscapeChar).flatten ++
        ([dquoteChar] ++ (':' :: ' ' :: (jsonEncodeString p.2 ++
          ((ps.map renderMember).map (fun y => jsep ++ y)).flatten)))) := by
  simp [listIntercalate, renderMember, jsonEncodeString, List.append_assoc]

theorem skipJsonWs_inter (p : String × String) (ps : List (String × String))
    (X : List Char) :
    skipJsonWs (listIntercalate jsep ((p :: ps).map renderMember) ++ X) =
      listIntercalate jsep ((p :: ps).map renderMember) ++ X := by
  rw [inter_head, List.cons_append, skipJsonWs_cons_not _ _ (by decide)]

theorem jsonLoads_dumps_aux (p : String × String)
    (ps : List (String × String)) :
    jsonLoadsObjAux (pyJsonDumpsPairs (p :: ps)).data =
      some (p :: ps, []) := by
  conv_lhs => unfold pyJsonDumpsPairs jsonLoadsObjAux
  dsimp only
  rw [skipJsonWs_cons_not _ _ (by decide)]
  dsimp only
  rw [if_pos rfl]
  rw [skipJsonWs_cons_ws _ _ (by decide), skipJsonWs_cons_ws _ _ (by decide),
    skipJsonWs_cons_ws _ _ (by decide)]
  rw [show ('\n' :: rbraceChar :: ([] : List Char)) = ['\n', rbraceChar]
    from rfl]
  rw [skipJsonWs_inter]
  split
  · rename_i d rest2 heq
    rw [inter_head, List.cons_append, List.cons.injEq] at heq
    rw [if_neg (by rw [← heq.1]; decide)]
    refine membersAux_render (p :: ps) _ (by simp) ?_ []
    simp only [List.length_cons, List.length_append]
    have := inter_len p ps
    simp only [List.length_cons] at this ⊢
    omega
  · rename_i heq
    rw [inter_head, List.cons_append] at heq
    exact List.noConfusion heq

theorem jsonLoads_dumps (l : List (String × String)) :
    jsonLoadsObj (pyJsonDumpsPairs l) = some l := by
  cases l with
  | nil => rfl
  | cons p ps =>
    unfold jsonLoadsObj
    rw [jsonLoads_dumps_aux]
    rfl

theorem pyStripList_sandwich (a b : Char) (m : List Char)
    (ha : pyIsSpace a = false) (hb : pyIsSpace b = false) :
    pyStripList (a :: (m ++ [b])) = a :: (m ++ [b]) := by
  unfold pyStripList
  rw [List.dropWhile_cons, if_neg (by simp [ha])]
  rw [show (a :: (m ++ [b])).reverse = b :: (m.reverse ++ [a]) by simp]
  rw [List.dropWhile_cons, if_neg (by simp [hb])]
  rw [show (b :: (m.reverse ++ [a])).reverse = a :: (m ++ [b]) by simp]

theorem pyStrip_dumps (l : List (String × String)) :
    pyStrip (pyJsonDumpsPairs l) = pyJsonDumpsPairs l := by
  cases l with
  | nil => rfl
  | cons p ps =>
    unfold pyJsonDumpsPairs pyStrip
    dsimp only
    congr 1
    rw [show lbraceChar :: '\n' :: ' ' :: ' ' ::
        (listIntercalate jsep ((p :: ps).map renderMember) ++
          ['\n', rbraceChar]) =
      lbraceChar :: (('\n' :: ' ' :: ' ' ::
        (listIntercalate jsep ((p :: ps).map renderMember) ++ ['\n'])) ++
          [rbraceChar]) by simp]
    exact pyStripList_sandwich _ _ _ (by decide) (by decide)

theorem dumps_ne_empty (l : List (String × String)) :
    pyJsonDumpsPairs l ≠ "" := by
  cases l with
  | nil =>
    intro h
    have := congrArg String.data h
    simp [pyJsonDumpsPairs] at this
  | cons p ps =>
    intro h
    have := congrArg String.data h
    simp [pyJsonDumpsPairs] at this

/-- C9: Round-trip persistence of the alias store: for every alias table,
saving it with a successful write (the model of `_save_aliases`, which dumps
the table as indented JSON into the alias file) and then reloading the
configuration (the model of `_load_aliases`, which strips and `json.loads`
the file content) yields the same table - save-then-load is the identity. -/
theorem c9_alias_roundtrip (st : ExecState) :
    load_aliases ((save_aliases true st).alias_file) = st.aliases := by
  unfold save_aliases
  rw [if_pos rfl]
  unfold load_aliases
  dsimp only
  rw [pyStrip_dumps, if_neg (dumps_ne_empty _), jsonLoads_dumps]
  rfl

end SimplCli
